import Mathlib

/-!
Verification of the feature/dependency backend of the autoforge repository.

The development shallowly embeds the three storage backends of
`src/server/services/backend/` (`sqlite.py`, `markdown.py`, `convex.py`).
A project's feature table is modelled as a `List Feature` (rows in
insertion order); each backend operation becomes a pure function; a Python
exception becomes `Except.error`, so a call that raises leaves the caller's
state untouched by construction.
-/

namespace AutoForge

/-- Feature record, after `server.schemas.FeatureResponse` (the Pydantic
model itself is not under `src/`; fields and defaults are taken from the
spec data model and from how the three backends construct responses).
`blocked` / `blocking_dependencies` are the derived view fields and default
to `false` / `[]` when a backend does not compute them. -/
structure Feature where
  id : Nat
  priority : Int
  category : String
  name : String
  description : String := ""
  steps : List String := []
  dependencies : List Nat := []
  passes : Bool := false
  in_progress : Bool := false
  blocked : Bool := false
  blocking_dependencies : List Nat := []
deriving Repr, DecidableEq

/-- Partial update record, after `server.schemas.FeatureUpdate` (module not
under `src/`; the six optional fields are those applied by
`SQLiteBackend.update_feature`, matching the spec's "applies only the
fields present in partial"). `none` means the field is absent. -/
structure FeatureUpdate where
  category : Option String := none
  name : Option String := none
  description : Option String := none
  steps : Option (List String) := none
  priority : Option Int := none
  dependencies : Option (List Nat) := none
deriving Repr, DecidableEq

/-- Dependency list of the feature with the given id: the first row whose
id matches, or `[]` when absent (`f.dependencies or []` in the source). -/
def depsOf (fs : List Feature) (i : Nat) : List Nat :=
  (Option.map Feature.dependencies (fs.find? (fun f => f.id == i))).getD []

/-- Dependency edge of the spec's graph: `Edge fs a b` means feature `a`
depends on feature `b`. -/
def Edge (fs : List Feature) (a b : Nat) : Prop :=
  b ∈ depsOf fs a

/-- Reachability along dependency edges (reflexive-transitive closure). -/
def Reaches (fs : List Feature) (a b : Nat) : Prop :=
  Relation.ReflTransGen (Edge fs) a b

/-- A directed cycle exists in the dependency graph. -/
def HasCycle (fs : List Feature) : Prop :=
  ∃ a, Relation.TransGen (Edge fs) a a

/-- One breadth-first expansion step: keep the accumulator and append the
dependencies of its members that are not yet present. -/
def stepSet (fs : List Feature) (acc : List Nat) : List Nat :=
  acc ++ ((acc.bind (depsOf fs)).filter (fun x => ¬ x ∈ acc)).dedup

/-- Iterated expansion from a start node. -/
def reachSet (fs : List Feature) (start : Nat) : Nat → List Nat
  | 0 => [start]
  | n + 1 => stepSet fs (reachSet fs start n)

/-- Enough iterations to stabilise: one more than the number of distinct
dependency targets occurring in the project. -/
def reachBound (fs : List Feature) : Nat :=
  ((fs.bind Feature.dependencies).dedup).length + 1

/-- Executable reachability test over the dependency edges. -/
def reachableB (fs : List Feature) (start target : Nat) : Bool :=
  target ∈ reachSet fs start (reachBound fs)

/-- Modelled from the spec: `api.dependency_resolver.would_create_circular_dependency`
is imported by `SQLiteBackend` but the module is not under `src/`.  Spec
§4.1: given the full dependency map and a candidate edge `feature_id →
dep_id`, a cycle is introduced iff a reachability traversal over the
existing edges rooted at the proposed target `dep_id` finds the source
`feature_id`. -/
def would_create_circular_dependency (fs : List Feature) (feature_id dep_id : Nat) : Bool :=
  reachableB fs dep_id feature_id

/-- Executable cycle detector for the whole graph, used to state
counterexamples; proved equivalent to `HasCycle` below. -/
def hasCycleB (fs : List Feature) : Bool :=
  fs.any (fun f => (depsOf fs f.id).any (fun d => reachableB fs d f.id))

/-- Base relation extended with edges from one source `u` into targets `D`:
the shape of a dependency graph after `add_dependency` / `set_dependencies`
rewrites feature `u`'s dependency list. -/
def EdgeFrom (T : Nat → Nat → Prop) (u : Nat) (D : List Nat) (a b : Nat) : Prop :=
  T a b ∨ (a = u ∧ b ∈ D)

/-- Update the first row whose id matches (SQLAlchemy
`query.filter(...).first()` followed by attribute assignment and commit). -/
def updFirst (fs : List Feature) (fid : Nat) (g : Feature → Feature) : List Feature :=
  match fs with
  | [] => []
  | f :: rest => if f.id == fid then g f :: rest else f :: updFirst rest fid g

/-- Replace the dependency list of every row whose id matches (the
`test_features` list comprehension inside
`SQLiteBackend.set_dependencies`). -/
def setDepsAll (fs : List Feature) (fid : Nat) (ds : List Nat) : List Feature :=
  fs.map (fun f => if f.id == fid then { f with dependencies := ds } else f)

/-- Modelled from the spec: `api.dependency_resolver.MAX_DEPENDENCIES_PER_FEATURE`
is not under `src/`.  The spec fixes "a maximum cardinality (enforced as a
fixed constant, same value across backends)" without naming the value; it
is fixed here at 10.  No theorem below depends on the particular value. -/
def MAX_DEPENDENCIES_PER_FEATURE : Nat := 10

/-- Python `sorted` on a list of ints (stable, ascending). -/
def sortedNat (l : List Nat) : List Nat :=
  List.insertionSort (fun a b => a ≤ b) l

/-- SQLAlchemy `order_by(Feature.priority)` / Python `sort(key=priority)`:
stable ascending sort by priority. -/
def sortByPriority (fs : List Feature) : List Feature :=
  List.insertionSort (fun a b : Feature => a.priority ≤ b.priority) fs

/-- Set of ids of passing features (`{f.id for f in all_features if f.passes}`),
kept as a list; only membership is ever used. -/
def passingIds (fs : List Feature) : List Nat :=
  (fs.filter (fun f => f.passes)).map Feature.id

/-- `SQLiteBackend._feature_to_response`: derive `blocked` and
`blocking_dependencies` from the passing-id set, or report not-blocked when
no set is supplied (`passing_ids is None`). -/
def feature_to_response (f : Feature) (passing : Option (List Nat)) : Feature :=
  match passing with
  | none => { f with blocked := false, blocking_dependencies := [] }
  | some ids =>
      let blocking := f.dependencies.filter (fun d => ¬ d ∈ ids)
      { f with blocked := !blocking.isEmpty, blocking_dependencies := blocking }

/-- The three buckets returned by `list_features`. -/
structure FeatureLists where
  pending : List Feature
  in_progress : List Feature
  done : List Feature
deriving Repr, DecidableEq

/-- The bucket-assignment loop of `SQLiteBackend.list_features` (and, on
already-converted features, `ConvexBackend.list_features`): first match of
`passes` / `in_progress` wins, else pending; responses keep input order. -/
def bucketize (passing : List Nat) : List Feature → FeatureLists
  | [] => ⟨[], [], []⟩
  | f :: rest =>
      let r := bucketize passing rest
      let resp := feature_to_response f (some passing)
      if f.passes then ⟨r.pending, r.in_progress, resp :: r.done⟩
      else if f.in_progress then ⟨r.pending, resp :: r.in_progress, r.done⟩
      else ⟨resp :: r.pending, r.in_progress, r.done⟩

/-- `SQLiteBackend.list_features`. -/
def sqlite_list_features (fs : List Feature) : FeatureLists :=
  bucketize (passingIds (sortByPriority fs)) (sortByPriority fs)

/-- `SQLiteBackend.get_feature`: note `_feature_to_response` is called with
`passing_ids=None`, so the response never reports blocking. -/
def sqlite_get_feature (fs : List Feature) (fid : Nat) : Option Feature :=
  (fs.find? (fun f => f.id == fid)).map (fun f => feature_to_response f none)

/-- Application of the present fields of a partial update
(`if update.x is not None: f.x = update.x`). -/
def applyUpdate (f : Feature) (u : FeatureUpdate) : Feature :=
  { f with
    category := u.category.getD f.category,
    name := u.name.getD f.name,
    description := u.description.getD f.description,
    steps := u.steps.getD f.steps,
    priority := u.priority.getD f.priority,
    dependencies := u.dependencies.getD f.dependencies }

/-- `SQLiteBackend.update_feature`. -/
def sqlite_update_feature (fs : List Feature) (fid : Nat) (u : FeatureUpdate) :
    Except String (List Feature × Feature) :=
  match fs.find? (fun f => f.id == fid) with
  | none => .error ("Feature " ++ toString fid ++ " not found")
  | some f =>
      if f.passes then .error "Cannot edit completed feature"
      else
        let fs' := updFirst fs fid (fun g => applyUpdate g u)
        .ok (fs', feature_to_response (applyUpdate f u) (some (passingIds fs')))

/-- Strip a deleted id from one row's dependency list
(`if other.dependencies and feature_id in other.dependencies`). -/
def stripDep (fid : Nat) (f : Feature) : Feature :=
  if fid ∈ f.dependencies then
    { f with dependencies := f.dependencies.filter (fun d => d ≠ fid) }
  else f

/-- Delete the first row with the given id (`session.delete(f)`). -/
def removeFirstById (fs : List Feature) (fid : Nat) : List Feature :=
  match fs with
  | [] => []
  | f :: rest => if f.id == fid then rest else f :: removeFirstById rest fid

/-- Result dictionary of `delete_feature`. -/
structure DeleteResult where
  success : Bool
  affected_features : List Nat
deriving Repr, DecidableEq

/-- `SQLiteBackend.delete_feature`. -/
def sqlite_delete_feature (fs : List Feature) (fid : Nat) :
    Except String (List Feature × DeleteResult) :=
  match fs.find? (fun f => f.id == fid) with
  | none => .error ("Feature " ++ toString fid ++ " not found")
  | some _ =>
      let affected := (fs.filter (fun o => fid ∈ o.dependencies)).map Feature.id
      .ok (removeFirstById (fs.map (stripDep fid)) fid, ⟨true, affected⟩)

/-- Maximum priority over all rows
(`query.order_by(Feature.priority.desc()).first()`). -/
def maxPriority (fs : List Feature) : Option Int :=
  (fs.map Feature.priority).max?

/-- `SQLiteBackend.skip_feature`. -/
def sqlite_skip_feature (fs : List Feature) (fid : Nat) :
    Except String (List Feature × Bool) :=
  match fs.find? (fun f => f.id == fid) with
  | none => .error ("Feature " ++ toString fid ++ " not found")
  | some _ =>
      let newp : Int := match maxPriority fs with | some m => m + 1 | none => 1
      .ok (updFirst fs fid (fun f => { f with priority := newp }), true)

/-- Node of the SQLite dependency graph. -/
structure GraphNode where
  id : Nat
  name : String
  category : String
  status : String
  priority : Int
  dependencies : List Nat
deriving Repr, DecidableEq

/-- Edge of the SQLite dependency graph (`source` = the dependency,
`target` = the dependent feature). -/
structure GraphEdge where
  source : Nat
  target : Nat
deriving Repr, DecidableEq

/-- Status derivation inside `SQLiteBackend.get_dependency_graph`. -/
def sqlite_graph_status (passing : List Nat) (f : Feature) : String :=
  if f.passes then "done"
  else if !(f.dependencies.filter (fun d => ¬ d ∈ passing)).isEmpty then "blocked"
  else if f.in_progress then "in_progress"
  else "pending"

/-- `SQLiteBackend.get_dependency_graph`. -/
def sqlite_get_dependency_graph (fs : List Feature) : List GraphNode × List GraphEdge :=
  (fs.map (fun f =>
      ⟨f.id, f.name, f.category, sqlite_graph_status (passingIds fs) f, f.priority,
       f.dependencies⟩),
   fs.bind (fun f => f.dependencies.map (fun d => ⟨d, f.id⟩)))

/-- `SQLiteBackend.add_dependency`. -/
def sqlite_add_dependency (fs : List Feature) (fid dep : Nat) :
    Except String (List Feature × List Nat) :=
  match fs.find? (fun f => f.id == fid) with
  | none => .error ("Feature " ++ toString fid ++ " not found")
  | some f =>
    match fs.find? (fun g => g.id == dep) with
    | none => .error ("Dependency " ++ toString dep ++ " not found")
    | some _ =>
      if fid = dep then .error "Cannot depend on self"
      else if MAX_DEPENDENCIES_PER_FEATURE ≤ f.dependencies.length then
        .error "Max dependencies exceeded"
      else if dep ∈ f.dependencies then .error "Dependency already exists"
      else if would_create_circular_dependency fs fid dep then
        .error "Would create circular dependency"
      else
        .ok (updFirst fs fid (fun g => { g with dependencies := sortedNat (g.dependencies ++ [dep]) }),
             sortedNat (f.dependencies ++ [dep]))

/-- `SQLiteBackend.remove_dependency` (`current.remove(dep_id)` deletes the
first occurrence). -/
def sqlite_remove_dependency (fs : List Feature) (fid dep : Nat) :
    Except String (List Feature × List Nat) :=
  match fs.find? (fun f => f.id == fid) with
  | none => .error ("Feature " ++ toString fid ++ " not found")
  | some f =>
      if ¬ dep ∈ f.dependencies then .error "Dependency does not exist"
      else
        .ok (updFirst fs fid (fun g => { g with dependencies := g.dependencies.erase dep }),
             f.dependencies.erase dep)

/-- `SQLiteBackend.set_dependencies`. -/
def sqlite_set_dependencies (fs : List Feature) (fid : Nat) (deps : List Nat) :
    Except String (List Feature × List Nat) :=
  if fid ∈ deps then .error "Cannot depend on self"
  else if ¬ deps.length = deps.dedup.length then .error "Duplicate dependencies"
  else
    match fs.find? (fun f => f.id == fid) with
    | none => .error ("Feature " ++ toString fid ++ " not found")
    | some _ =>
      if ¬ (deps.filter (fun d => ¬ d ∈ fs.map Feature.id)) = [] then
        .error "Dependencies not found"
      else if deps.any (fun d =>
          would_create_circular_dependency (setDepsAll fs fid deps) fid d) then
        .error "Circular dependency detected"
      else
        .ok (updFirst fs fid (fun g => { g with dependencies := sortedNat deps }),
             sortedNat deps)

/-- Is the call an error (a raised Python exception)?  In this pure
embedding an erroring call returns no new state, which models
`session.rollback()`: a failed call leaves every feature untouched. -/
def isError {α : Type} (e : Except String α) : Bool :=
  match e with
  | .error _ => true
  | .ok _ => false

/-- A dependency-mutating call, for stating the acyclicity invariant. -/
inductive DepCall where
  | add (fid dep : Nat)
  | setDeps (fid : Nat) (deps : List Nat)
deriving Repr, DecidableEq

/-- Apply one dependency call to a SQLite project state. -/
def applyDepCall (fs : List Feature) : DepCall → Except String (List Feature × List Nat)
  | .add fid dep => sqlite_add_dependency fs fid dep
  | .setDeps fid deps => sqlite_set_dependencies fs fid deps

/-- Run a sequence of dependency calls; a failed call contributes nothing
(the transaction rolls back and the state is kept). -/
def runDepCalls (fs : List Feature) : List DepCall → List Feature
  | [] => fs
  | c :: cs =>
      match applyDepCall fs c with
      | .ok (fs', _) => runDepCalls fs' cs
      | .error _ => runDepCalls fs cs

/-- The hypothetical state in which the candidate edge `fid → dep` has been
appended to `fid`'s dependency list, used to phrase "the call would close a
cycle". -/
def addEdgeState (fs : List Feature) (fid dep : Nat) : List Feature :=
  updFirst fs fid (fun g => { g with dependencies := g.dependencies ++ [dep] })

/-- Node shape shared by the Markdown and Convex dependency graphs
(`{"id": ..., "label": f"{id}: {name}", "status": ...}`). -/
structure LabelNode where
  id : Nat
  label : String
  status : String
deriving Repr, DecidableEq

/-- Edge shape of the Markdown and Convex dependency graphs
(`{"from": dep, "to": id}`; `from` is a Lean keyword, hence `src`/`tgt`). -/
structure LabelEdge where
  src : Nat
  tgt : Nat
deriving Repr, DecidableEq

/-- Modelled from the spec: the Convex backend's remote `features:*`
functions (TypeScript) are not under `src/`.  Spec §4.3: dependency
operations are read-modify-write — read the feature, compute the new list,
write the whole feature back.  The remote store is modelled as the list of
feature documents; `features:getByFeatureId` returns the document with the
given featureId and `features:updateByFeatureId` overwrites the supplied
fields of that document. -/
def convex_get_feature (store : List Feature) (fid : Nat) : Option Feature :=
  store.find? (fun f => f.id == fid)

/-- Remote write of a new dependency list (`features:updateByFeatureId`
with `fields = {"dependencies": ds}`), modelled from the spec as above. -/
def convex_write_dependencies (store : List Feature) (fid : Nat) (ds : List Nat) :
    List Feature :=
  updFirst store fid (fun f => { f with dependencies := ds })

/-- `ConvexBackend.add_dependency`: no self/cap/cycle check ("For MVP
Convex, let's just add it"); an already-present dependency returns the
current list without error. -/
def convex_add_dependency (store : List Feature) (fid dep : Nat) :
    Except String (List Feature × List Nat) :=
  match convex_get_feature store fid with
  | none => Except.error "Feature not found"
  | some feat =>
      if dep ∈ feat.dependencies then Except.ok (store, feat.dependencies)
      else
        Except.ok (convex_write_dependencies store fid (feat.dependencies ++ [dep]),
                   feat.dependencies ++ [dep])

/-- `ConvexBackend.set_dependencies`: delegates straight to the remote
update, with no validation at all. -/
def convex_set_dependencies (store : List Feature) (fid : Nat) (ds : List Nat) :
    List Feature × List Nat :=
  (convex_write_dependencies store fid ds, ds)

/-- Status derivation inside `ConvexBackend.get_dependency_graph`: note
there is no "blocked" case. -/
def convex_node_status (f : Feature) : String :=
  if f.passes then "done" else if f.in_progress then "in_progress" else "pending"

/-- `ConvexBackend.get_dependency_graph` (the per-document loop over the
remote `features:list` result). -/
def convex_get_dependency_graph (store : List Feature) : List LabelNode × List LabelEdge :=
  (store.map (fun f => ⟨f.id, toString f.id ++ ": " ++ f.name, convex_node_status f⟩),
   store.bind (fun f => f.dependencies.map (fun d => ⟨d, f.id⟩)))

/-- Modelled from the spec: the remote `features:list` query is not under
`src/`; per spec §4.1 listings are ordered ascending by priority, so the
remote result is modelled as the store sorted by priority. -/
def convex_features_list (store : List Feature) : List Feature :=
  sortByPriority store

/-- `ConvexBackend._feature_from_convex`: the converted response carries no
blocking information (`FeatureResponse` defaults `blocked=False`,
`blocking_dependencies=[]`). -/
def feature_from_convex (f : Feature) : Feature :=
  { f with blocked := false, blocking_dependencies := [] }

/-- The bucket-assignment loop of `ConvexBackend.list_features`. -/
def convexBucketize : List Feature → FeatureLists
  | [] => ⟨[], [], []⟩
  | f :: rest =>
      let r := convexBucketize rest
      let resp := feature_from_convex f
      if f.passes then ⟨r.pending, r.in_progress, resp :: r.done⟩
      else if f.in_progress then ⟨r.pending, resp :: r.in_progress, r.done⟩
      else ⟨resp :: r.pending, r.in_progress, r.done⟩

/-- `ConvexBackend.list_features`: partition the query result in order
(there is no local re-sort). -/
def convex_list_features (store : List Feature) : FeatureLists :=
  convexBucketize (convex_features_list store)

/-- Python whitespace, as matched by `\s` and stripped by `str.strip()`. -/
def pyIsSpace (c : Char) : Bool :=
  c = ' ' || c = '\t' || c = '\n' || c = '\r' || c = '\x0b' || c = '\x0c'

/-- Python `str.strip()`. -/
def stripChars (s : List Char) : List Char :=
  ((s.dropWhile pyIsSpace).reverse.dropWhile pyIsSpace).reverse

/-- Python `content.split('\n')` (keeps empty segments; `""` gives `[""]`). -/
def splitOnNL : List Char → List (List Char)
  | [] => [[]]
  | c :: rest =>
      if c = '\n' then [] :: splitOnNL rest
      else
        match splitOnNL rest with
        | [] => [[c]]
        | l :: ls => (c :: l) :: ls

/-- Match the regex tail `\s+(.+)$`: at least one whitespace character
followed by a nonempty group running to the end of the line.  When the
remainder is all whitespace, regex backtracking still matches by giving
the last whitespace character to the group. -/
def wsGroup (s : List Char) : Option (List Char) :=
  let w := s.takeWhile pyIsSpace
  let r := s.dropWhile pyIsSpace
  if w.isEmpty then none
  else if !r.isEmpty then some r
  else
    match w.getLast? with
    | some c => if 2 ≤ w.length then some [c] else none
    | none => none

/-- `header_re = ^#+\s+(.+)$` of `MarkdownBackend._parse_features_md`. -/
def headerMatch (line : List Char) : Option (List Char) :=
  if (line.takeWhile (fun c => c = '#')).isEmpty then none
  else wsGroup (line.dropWhile (fun c => c = '#'))

/-- `item_re = ^-\s+\[([ x/])\]\s+(.+)$`: returns the status character and
the raw name group. -/
def itemMatch (line : List Char) : Option (Char × List Char) :=
  match line with
  | '-' :: rest =>
      if (rest.takeWhile pyIsSpace).isEmpty then none
      else
        match rest.dropWhile pyIsSpace with
        | '[' :: sc :: ']' :: r2 =>
            if sc = ' ' || sc = 'x' || sc = '/' then
              match wsGroup r2 with
              | some g => some (sc, g)
              | none => none
            else none
        | _ => none
  | _ => none

/-- `step_re = ^\s+-\s+(.+)$`. -/
def stepMatch (line : List Char) : Option (List Char) :=
  if (line.takeWhile pyIsSpace).isEmpty then none
  else
    match line.dropWhile pyIsSpace with
    | '-' :: r2 => wsGroup r2
    | _ => none

/-- Does the string begin with the literal `-->`? -/
def hasArrowPrefix : List Char → Bool
  | '-' :: '-' :: '>' :: _ => true
  | _ => false

/-- Remainder after the last occurrence of `-->`, if any: the greedy
`.*-->` tail of `meta_re` consumes through the last occurrence. -/
def afterLastArrow : List Char → Option (List Char)
  | [] => none
  | c :: rest =>
      match afterLastArrow rest with
      | some r => some r
      | none => if hasArrowPrefix (c :: rest) then some ((c :: rest).drop 3) else none

/-- ASCII digit. -/
def isDigitCh (c : Char) : Bool := '0' ≤ c && c ≤ '9'

/-- Numeric value of a digit run. -/
def natOfDigits (ds : List Char) : Nat :=
  ds.foldl (fun n c => 10 * n + (c.toNat - 48)) 0

/-- Attempt `meta_re = <!--\s+id:\s*(\d+).*-->` anchored at the start of
`s`; returns the id and the remainder after the (greedy) match. -/
def metaTryAt (s : List Char) : Option (Nat × List Char) :=
  match s with
  | '<' :: '!' :: '-' :: '-' :: rest =>
      if (rest.takeWhile pyIsSpace).isEmpty then none
      else
        match rest.dropWhile pyIsSpace with
        | 'i' :: 'd' :: ':' :: r2 =>
            let r3 := r2.dropWhile pyIsSpace
            let ds := r3.takeWhile isDigitCh
            if ds.isEmpty then none
            else
              match afterLastArrow (r3.dropWhile isDigitCh) with
              | some rem => some (natOfDigits ds, rem)
              | none => none
        | _ => none
  | _ => none

/-- `meta_re.search` on the name: earliest match position wins; returns the
id, the text before the match and the text after it (`meta_re.sub('', ...)`
removes exactly this one match, since nothing after the greedy `-->` can
match again). -/
def metaSearch : List Char → Option (Nat × List Char × List Char)
  | [] => none
  | c :: rest =>
      match metaTryAt (c :: rest) with
      | some (i, rem) => some (i, [], rem)
      | none =>
          match metaSearch rest with
          | some (i, pre, rem) => some (i, c :: pre, rem)
          | none => none

/-- Parser state of the line loop in `_parse_features_md`. -/
structure ParseState where
  category : String
  cur : Option Feature
  acc : List Feature
  counter : Nat

/-- Commit the feature under construction (`features.append`). -/
def commitCur (st : ParseState) : List Feature :=
  match st.cur with
  | some f => st.acc ++ [f]
  | none => st.acc

/-- One iteration of the line loop of `_parse_features_md`. -/
def parseLine (st : ParseState) (line : List Char) : ParseState :=
  if (stripChars line).isEmpty then st
  else
    match headerMatch line with
    | some g => { st with category := String.mk (stripChars g) }
    | none =>
    match itemMatch line with
    | some (sc, g2) =>
        let name0 := stripChars g2
        let idName : Nat × String × Nat :=
          match metaSearch name0 with
          | some (i, pre, rem) => (i, String.mk (stripChars (pre ++ rem)), st.counter)
          | none => (st.counter + 1, String.mk name0, st.counter + 1)
        let acc' := commitCur st
        { category := st.category,
          cur := some
            { id := idName.1,
              priority := (acc'.length : Int) + 1,
              category := st.category,
              name := idName.2.1,
              description := "",
              steps := [],
              dependencies := [],
              passes := sc == 'x',
              in_progress := sc == '/' },
          acc := acc',
          counter := idName.2.2 }
    | none =>
    match stepMatch line with
    | some g =>
        match st.cur with
        | some f =>
            { st with cur := some { f with steps := f.steps ++ [String.mk (stripChars g)] } }
        | none => st
    | none => st

/-- `MarkdownBackend._parse_features_md`. -/
def parse_features_md (content : String) : List Feature :=
  commitCur ((splitOnNL content.data).foldl parseLine ⟨"General", none, [], 0⟩)

/-- Category key used when grouping (`f.category or "General"`). -/
def catOrGeneral (f : Feature) : String :=
  if f.category = "" then "General" else f.category

/-- Lexicographic code-point comparison of character lists (the order
Python's `<` puts on `str`). -/
def charListLt : List Char → List Char → Bool
  | _, [] => false
  | [], _ :: _ => true
  | c :: cs, d :: ds => if c < d then true else if d < c then false else charListLt cs ds

/-- Python `sorted` on strings: ascending lexicographic by code point
(spelled out character-wise so that concrete instances compute). -/
def sortStrings (l : List String) : List String :=
  List.insertionSort (fun a b : String => charListLt b.data a.data = false) l

/-- Category order of `_serialize_features`: alphabetical, except that
"General" is moved to the front when present. -/
def serializeCategories (features : List Feature) : List String :=
  let cats := sortStrings ((features.map catOrGeneral).dedup)
  if "General" ∈ cats then "General" :: cats.erase "General" else cats

/-- Checkbox mark of a feature. -/
def markOf (f : Feature) : String :=
  if f.passes then "x" else if f.in_progress then "/" else " "

/-- Lines contributed by one feature (item line with embedded id comment,
then its steps). -/
def featureLines (f : Feature) : List String :=
  ("- [" ++ markOf f ++ "] " ++ f.name ++ " <!-- id: " ++ toString f.id ++ " -->")
    :: f.steps.map (fun s => "  - " ++ s)

/-- Lines contributed by one category section. -/
def categoryLines (features : List Feature) (cat : String) : List String :=
  ["# " ++ cat, ""] ++
    ((sortByPriority (features.filter (fun f => catOrGeneral f == cat))).bind featureLines)
    ++ [""]

/-- `MarkdownBackend._serialize_features`. -/
def serialize_features (features : List Feature) : String :=
  String.intercalate "\n" ((serializeCategories features).bind (categoryLines features))

/-- `MarkdownBackend._read_features_list`: the features file modelled as
`Option String` (`none` = file does not exist). -/
def md_read_features (file : Option String) : List Feature :=
  match file with
  | none => []
  | some s => parse_features_md s

/-- `MarkdownBackend._save_features_list`. -/
def md_save (features : List Feature) : Option String :=
  some (serialize_features features)

/-- `MarkdownBackend.list_features`. -/
def md_list_features (file : Option String) : FeatureLists :=
  let features := sortByPriority (md_read_features file)
  ⟨features.filter (fun f => !f.passes && !f.in_progress),
   features.filter (fun f => f.in_progress && !f.passes),
   features.filter (fun f => f.passes)⟩

/-- `MarkdownBackend.get_feature`. -/
def md_get_feature (file : Option String) (fid : Nat) : Option Feature :=
  (md_read_features file).find? (fun f => f.id == fid)

/-- `MarkdownBackend.update_feature`: note the absence of any
`passes` guard — completed features are updated like any other. -/
def md_update_feature (file : Option String) (fid : Nat) (u : FeatureUpdate) :
    Except String (Option String × Feature) :=
  let features := md_read_features file
  match features.find? (fun f => f.id == fid) with
  | none => Except.error ("Feature " ++ toString fid ++ " not found")
  | some f =>
      Except.ok (md_save (updFirst features fid (fun g => applyUpdate g u)),
                 applyUpdate f u)

/-- Result dictionary of `MarkdownBackend.delete_feature`
(`{"success": False}` or `{"success": True, "id": fid}`). -/
structure MdDeleteResult where
  success : Bool
  id : Option Nat
deriving Repr, DecidableEq

/-- `MarkdownBackend.delete_feature`: a missing id is signalled by
`success=False` without raising and without touching the file; a deletion
strips no dependency references and reports no affected features. -/
def md_delete_feature (file : Option String) (fid : Nat) :
    Except String (Option String × MdDeleteResult) :=
  let features := md_read_features file
  let newList := features.filter (fun f => ¬ f.id == fid)
  if newList.length = features.length then Except.ok (file, ⟨false, none⟩)
  else Except.ok (md_save newList, ⟨true, some fid⟩)

/-- `MarkdownBackend.skip_feature`. -/
def md_skip_feature (file : Option String) (fid : Nat) : Option String × Bool :=
  let features := md_read_features file
  match features.find? (fun f => f.id == fid) with
  | none => (file, false)
  | some _ =>
      let maxPri : Int := (maxPriority features).getD 0
      (md_save (updFirst features fid (fun f => { f with priority := maxPri + 1 })), true)

/-- Status derivation inside `MarkdownBackend.get_dependency_graph`: no
"blocked" case. -/
def md_node_status (f : Feature) : String :=
  if f.passes then "done" else if f.in_progress then "in_progress" else "pending"

/-- `MarkdownBackend.get_dependency_graph`. -/
def md_get_dependency_graph (file : Option String) : List LabelNode × List LabelEdge :=
  let features := md_read_features file
  (features.map (fun f => ⟨f.id, toString f.id ++ ": " ++ f.name, md_node_status f⟩),
   features.bind (fun f => f.dependencies.map (fun d => ⟨d, f.id⟩)))

/-- `MarkdownBackend.add_dependency`: only a missing feature raises;
self-dependencies, cycles and the cap are not checked, and an
already-present dependency returns without error. -/
def md_add_dependency (file : Option String) (fid dep : Nat) :
    Except String (Option String × List Nat) :=
  let features := md_read_features file
  match features.find? (fun f => f.id == fid) with
  | none => Except.error "Feature not found"
  | some f =>
      if dep ∈ f.dependencies then Except.ok (file, f.dependencies)
      else
        Except.ok
          (md_save (updFirst features fid
            (fun g => { g with dependencies := g.dependencies ++ [dep] })),
           f.dependencies ++ [dep])

/-- `MarkdownBackend.set_dependencies`: no validation at all. -/
def md_set_dependencies (file : Option String) (fid : Nat) (ds : List Nat) :
    Except String (Option String × List Nat) :=
  let features := md_read_features file
  match features.find? (fun f => f.id == fid) with
  | none => Except.error "Feature not found"
  | some _ =>
      Except.ok (md_save (updFirst features fid
        (fun g => { g with dependencies := ds })), ds)

/-- JSON value, for modelling Python `json.loads` on the metadata files.
Numbers and string bodies are kept raw; only well-formedness matters to
the claims. -/
inductive Json where
  | null
  | bool (b : Bool)
  | num (raw : String)
  | str (raw : String)
  | arr (elems : List Json)
  | obj (fields : List (String × Json))

/-- JSON whitespace (RFC 8259 / Python `json`). -/
def jsonWs (s : List Char) : List Char :=
  s.dropWhile (fun c => c = ' ' || c = '\t' || c = '\n' || c = '\r')

/-- Scan a JSON string body after the opening quote; returns the raw body
and the remainder after the closing quote.  Escapes keep the following
character. -/
def scanStr : List Char → Option (List Char × List Char)
  | [] => none
  | '"' :: r => some ([], r)
  | '\\' :: c :: r =>
      match scanStr r with
      | some (cs, rest) => some ('\\' :: c :: cs, rest)
      | none => none
  | c :: r =>
      match scanStr r with
      | some (cs, rest) => some (c :: cs, rest)
      | none => none

/-- Scan the integer part of a JSON number (`0|[1-9][0-9]*`). -/
def scanIntPart : List Char → Option (List Char × List Char)
  | '0' :: r => some (['0'], r)
  | c :: r =>
      if isDigitCh c ∧ c ≠ '0' then some (c :: r.takeWhile isDigitCh, r.dropWhile isDigitCh)
      else none
  | [] => none

/-- Scan an optional fraction `(\.[0-9]+)?`. -/
def scanFrac (s : List Char) : List Char × List Char :=
  match s with
  | '.' :: r =>
      let ds := r.takeWhile isDigitCh
      if ds.isEmpty then ([], s) else ('.' :: ds, r.dropWhile isDigitCh)
  | _ => ([], s)

/-- Scan an optional exponent `([eE][-+]?[0-9]+)?`. -/
def scanExp (s : List Char) : List Char × List Char :=
  match s with
  | c :: r =>
      if c = 'e' ∨ c = 'E' then
        let (sgn, r1) : List Char × List Char :=
          match r with
          | s :: r' => if s = '+' ∨ s = '-' then ([s], r') else ([], r)
          | [] => ([], r)
        let ds := r1.takeWhile isDigitCh
        if ds.isEmpty then ([], s) else (c :: (sgn ++ ds), r1.dropWhile isDigitCh)
      else ([], s)
  | [] => ([], s)

/-- Scan a JSON number (maximal valid match; the caller rejects leftovers). -/
def scanNum (s : List Char) : Option (List Char × List Char) :=
  let (sgn, s1) : List Char × List Char :=
    match s with
    | '-' :: r => (['-'], r)
    | _ => ([], s)
  match scanIntPart s1 with
  | none => none
  | some (ip, s2) =>
      let (fp, s3) := scanFrac s2
      let (ep, s4) := scanExp s3
      some (sgn ++ ip ++ fp ++ ep, s4)

mutual

/-- Recursive-descent JSON value parser (fuel-bounded; the fuel supplied by
`json_loads` always suffices, so the "fuel" error is unreachable there). -/
def parseJsonV : Nat → List Char → Except String (Json × List Char)
  | 0, _ => Except.error "fuel"
  | fuel + 1, s =>
      match jsonWs s with
      | 'n' :: 'u' :: 'l' :: 'l' :: r => Except.ok (Json.null, r)
      | 't' :: 'r' :: 'u' :: 'e' :: r => Except.ok (Json.bool true, r)
      | 'f' :: 'a' :: 'l' :: 's' :: 'e' :: r => Except.ok (Json.bool false, r)
      | '"' :: r =>
          match scanStr r with
          | some (body, rest) => Except.ok (Json.str (String.mk body), rest)
          | none => Except.error "Unterminated string"
      | '[' :: r =>
          (match jsonWs r with
           | ']' :: rest => Except.ok (Json.arr [], rest)
           | _ =>
              match parseJsonV fuel r with
              | Except.error e => Except.error e
              | Except.ok (v, rest) =>
                  match parseJsonItems fuel rest [v] with
                  | Except.error e => Except.error e
                  | Except.ok (vs, rest') => Except.ok (Json.arr vs, rest'))
      | '{' :: r =>
          (match jsonWs r with
           | '}' :: rest => Except.ok (Json.obj [], rest)
           | _ =>
              match parseJsonPairs fuel r [] with
              | Except.error e => Except.error e
              | Except.ok (ps, rest') => Except.ok (Json.obj ps, rest'))
      | s' =>
          match scanNum s' with
          | some (raw, rest) => Except.ok (Json.num (String.mk raw), rest)
          | none => Except.error "Expecting value"

/-- Comma-separated continuation of a JSON array. -/
def parseJsonItems : Nat → List Char → List Json → Except String (List Json × List Char)
  | 0, _, _ => Except.error "fuel"
  | fuel + 1, s, acc =>
      match jsonWs s with
      | ',' :: r =>
          (match parseJsonV fuel r with
           | Except.error e => Except.error e
           | Except.ok (v, rest) => parseJsonItems fuel rest (acc ++ [v]))
      | ']' :: r => Except.ok (acc, r)
      | _ => Except.error "Expecting comma or bracket"

/-- Members of a JSON object (`"key": value` pairs). -/
def parseJsonPairs : Nat → List Char → List (String × Json) →
    Except String (List (String × Json) × List Char)
  | 0, _, _ => Except.error "fuel"
  | fuel + 1, s, acc =>
      match jsonWs s with
      | '"' :: r =>
          (match scanStr r with
           | none => Except.error "Unterminated string"
           | some (key, r1) =>
              match jsonWs r1 with
              | ':' :: r2 =>
                  (match parseJsonV fuel r2 with
                   | Except.error e => Except.error e
                   | Except.ok (v, rest) =>
                      match jsonWs rest with
                      | ',' :: r3 => parseJsonPairs fuel r3 (acc ++ [(String.mk key, v)])
                      | '}' :: r3 => Except.ok (acc ++ [(String.mk key, v)], r3)
                      | _ => Except.error "Expecting comma or brace")
              | _ => Except.error "Expecting colon")
      | _ => Except.error "Expecting property name"

end

/-- Python `json.loads`: parse one value and require only whitespace after. -/
def json_loads (s : String) : Except String Json :=
  match parseJsonV (2 * s.length + 2) s.data with
  | Except.error e => Except.error e
  | Except.ok (v, rest) =>
      if (jsonWs rest).isEmpty then Except.ok v else Except.error "Extra data"

/-- Default roadmap returned when `roadmap.json` does not exist. -/
def defaultRoadmap : Json :=
  Json.obj [("phases", Json.arr []), ("milestones", Json.arr []),
            ("currentPhase", Json.null)]

/-- `SQLiteBackend.get_context`: a missing file yields `{}`, but the
`json.loads` of an existing file is not guarded — a parse error
propagates. -/
def sqlite_get_context (file : Option String) : Except String Json :=
  match file with
  | none => Except.ok (Json.obj [])
  | some s => json_loads s

/-- `SQLiteBackend.get_roadmap` (same unguarded `json.loads`). -/
def sqlite_get_roadmap (file : Option String) : Except String Json :=
  match file with
  | none => Except.ok defaultRoadmap
  | some s => json_loads s

/-- `MarkdownBackend.get_context` (identical to the SQLite version). -/
def md_get_context (file : Option String) : Except String Json :=
  match file with
  | none => Except.ok (Json.obj [])
  | some s => json_loads s

/-- `MarkdownBackend.get_roadmap` (identical to the SQLite version). -/
def md_get_roadmap (file : Option String) : Except String Json :=
  match file with
  | none => Except.ok defaultRoadmap
  | some s => json_loads s

/-- `ConvexBackend.get_context` (identical to the SQLite version). -/
def convex_get_context (file : Option String) : Except String Json :=
  match file with
  | none => Except.ok (Json.obj [])
  | some s => json_loads s

/-- `ConvexBackend.get_roadmap` (identical to the SQLite version). -/
def convex_get_roadmap (file : Option String) : Except String Json :=
  match file with
  | none => Except.ok defaultRoadmap
  | some s => json_loads s

/-- Is the value a JSON object? (`ScheduleResponse(**d)` requires a dict). -/
def isJsonObj : Json → Bool
  | Json.obj _ => true
  | _ => false

/-- `MarkdownBackend._read_schedules_list`: the whole read is wrapped in
`try/except Exception: return []`, so malformed JSON (or a non-array, or
non-object elements) degrades to the empty list.  `ScheduleResponse` field
validation is not modelled further; the claims only concern malformed
JSON, which takes the `.error` branch here. -/
def md_read_schedules_list (file : Option String) : List Json :=
  match file with
  | none => []
  | some s =>
      match json_loads s with
      | Except.error _ => []
      | Except.ok (Json.arr elems) => if elems.all isJsonObj then elems else []
      | Except.ok _ => []

/-- `MarkdownBackend.list_schedules` is exactly `_read_schedules_list`. -/
def md_list_schedules (file : Option String) : List Json :=
  md_read_schedules_list file

/-- The completion event the spec's P3 quantifies over ("flipping a
blocking dependency's `passes` to true"): the `passes` flag of the
feature(s) with id `d` is set, nothing else changes.  (No operation in the
backend files sets `passes`; the agent harness does it externally.) -/
def setPasses (fs : List Feature) (d : Nat) : List Feature :=
  fs.map (fun f => if f.id == d then { f with passes := true } else f)

/-- Ascending-priority ordering of a feature list. -/
def PrioSorted (l : List Feature) : Prop :=
  l.Pairwise (fun a b => a.priority ≤ b.priority)

/-- All responses of a project in query order (the SQLite `list_features`
conversion of every row). -/
def sqlite_all_responses (fs : List Feature) : List Feature :=
  (sortByPriority fs).map
    (fun f => feature_to_response f (some (passingIds (sortByPriority fs))))

instance : IsTotal Feature (fun a b => a.priority ≤ b.priority) :=
  ⟨fun a b => Int.le_total a.priority b.priority⟩

instance : IsTrans Feature (fun a b => a.priority ≤ b.priority) :=
  ⟨fun _ _ _ hab hbc => le_trans hab hbc⟩

/-- Ids are unique within a project (the feature id is the primary key in
the SQLite backend; spec §3: "unique within a project's feature set"). -/
def NodupIds (fs : List Feature) : Prop :=
  (fs.map Feature.id).Nodup

/-- Status derivation exactly as the spec words it (priority order
done > blocked > in_progress > pending), for comparison with each
backend's node builder. -/
def specStatus (passing : List Nat) (f : Feature) : String :=
  if f.passes then "done"
  else if f.dependencies.any (fun d => ¬ d ∈ passing) then "blocked"
  else if f.in_progress then "in_progress"
  else "pending"

/-- The priority `skip_feature` assigns: one more than the project maximum
(`1` on an empty table, unreachable since the target exists). -/
def skipPriority (fs : List Feature) : Int :=
  match maxPriority fs with
  | some m => m + 1
  | none => 1

/-- What one `skip_feature` call guarantees, relating the pre- and
post-state: every other feature survives verbatim, the target survives with
only its priority rewritten to `skipPriority`, and in the post-state the
target's priority strictly dominates every other feature's. -/
def SkipMax (fs fs' : List Feature) (fid : Nat) : Prop :=
  (∀ g ∈ fs, ¬ g.id = fid → g ∈ fs') ∧
  (∃ f ∈ fs, f.id = fid ∧ ({ f with priority := skipPriority fs } : Feature) ∈ fs') ∧
  (∀ t ∈ fs', t.id = fid → ∀ g ∈ fs', ¬ g.id = fid → g.priority < t.priority)

instance : Std.Antisymm (fun a b : Int => a ≤ b) :=
  ⟨fun h1 h2 => le_antisymm h1 h2⟩

section Reachability

variable {fs : List Feature}

theorem mem_stepSet_self {acc : List Nat} {x : Nat} (hx : x ∈ acc) :
    x ∈ stepSet fs acc := by
  unfold stepSet; exact List.mem_append_left _ hx

theorem mem_stepSet_of_edge {acc : List Nat} {a b : Nat} (ha : a ∈ acc)
    (hab : Edge fs a b) : b ∈ stepSet fs acc := by
  unfold stepSet
  by_cases hb : b ∈ acc
  · exact List.mem_append_left _ hb
  · refine List.mem_append_right _ ?_
    rw [List.mem_dedup, List.mem_filter]
    refine ⟨List.mem_bind.mpr ⟨a, ha, hab⟩, by simpa using hb⟩

theorem mem_stepSet_iff {acc : List Nat} {x : Nat} :
    x ∈ stepSet fs acc ↔ x ∈ acc ∨ ∃ a ∈ acc, Edge fs a x := by
  constructor
  · intro h
    rcases List.mem_append.mp h with h | h
    · exact Or.inl h
    · rw [List.mem_dedup, List.mem_filter] at h
      exact Or.inr (List.mem_bind.mp h.1)
  · rintro (h | ⟨a, ha, hax⟩)
    · exact mem_stepSet_self h
    · exact mem_stepSet_of_edge ha hax

theorem reachSet_sound {start : Nat} :
    ∀ n, ∀ x, x ∈ reachSet fs start n → Reaches fs start x := by
  intro n
  induction n with
  | zero =>
      intro x h
      simp only [reachSet, List.mem_singleton] at h
      subst h; exact Relation.ReflTransGen.refl
  | succ n ih =>
      intro x h
      rcases mem_stepSet_iff.mp h with h | ⟨a, ha, hax⟩
      · exact ih x h
      · exact Relation.ReflTransGen.tail (ih a ha) hax

theorem reachSet_mono {start x : Nat} {n m : Nat} (hnm : n ≤ m)
    (hx : x ∈ reachSet fs start n) : x ∈ reachSet fs start m := by
  induction m with
  | zero => simpa [Nat.le_zero.mp hnm] using hx
  | succ m ih =>
      rcases Nat.lt_or_ge n (m + 1) with h | h
      · exact mem_stepSet_self (ih (Nat.lt_succ_iff.mp h))
      · have : n = m + 1 := Nat.le_antisymm hnm h
        simpa [this] using hx

theorem reachSet_nodup {start : Nat} : ∀ n, (reachSet fs start n).Nodup := by
  intro n
  induction n with
  | zero => simp [reachSet]
  | succ n ih =>
      simp only [reachSet, stepSet]
      refine List.Nodup.append ih (List.nodup_dedup _) ?_
      intro x hx hx'
      rw [List.mem_dedup, List.mem_filter] at hx'
      exact absurd hx (by simpa using hx'.2)

theorem reachSet_subset_universe {start : Nat} :
    ∀ n, reachSet fs start n ⊆ start :: (fs.bind Feature.dependencies).dedup := by
  intro n
  induction n with
  | zero => intro x hx; simp only [reachSet, List.mem_singleton] at hx; simp [hx]
  | succ n ih =>
      intro x hx
      rcases mem_stepSet_iff.mp hx with h | ⟨a, _, hax⟩
      · exact ih h
      · refine List.mem_cons_of_mem _ ?_
        rw [List.mem_dedup]
        unfold Edge at hax
        rcases hf : fs.find? (fun f => f.id == a) with _ | f
        · simp [depsOf, hf] at hax
        · simp only [depsOf, hf, Option.map_some', Option.getD_some] at hax
          exact List.mem_bind.mpr ⟨f, List.mem_of_find?_eq_some hf, hax⟩

theorem reachSet_length_le {start : Nat} (n : Nat) :
    (reachSet fs start n).length ≤ reachBound fs := by
  have h₁ := @reachSet_nodup fs start n
  have h₂ := @reachSet_subset_universe fs start n
  have := (h₁.subperm h₂).length_le
  simpa [reachBound] using this

theorem reachSet_stable_step {start n : Nat}
    (h : reachSet fs start (n + 1) = reachSet fs start n) :
    ∀ m, n ≤ m → reachSet fs start m = reachSet fs start n := by
  intro m hm
  induction m with
  | zero => simp [Nat.le_zero.mp hm]
  | succ m ih =>
      rcases Nat.lt_or_ge n (m + 1) with hl | hg
      · have hnm : n ≤ m := Nat.lt_succ_iff.mp hl
        have : reachSet fs start (m + 1) = stepSet fs (reachSet fs start m) := rfl
        rw [this, ih hnm]
        exact h
      · have : n = m + 1 := Nat.le_antisymm hm hg
        simp [this]

theorem reachSet_grow {start : Nat} {n : Nat}
    (h : reachSet fs start (n + 1) ≠ reachSet fs start n) :
    (reachSet fs start n).length + 1 ≤ (reachSet fs start (n + 1)).length := by
  have : reachSet fs start (n + 1) =
      reachSet fs start n ++
        (((reachSet fs start n).bind (depsOf fs)).filter
          (fun x => ¬ x ∈ reachSet fs start n)).dedup := rfl
  rcases he : (((reachSet fs start n).bind (depsOf fs)).filter
      (fun x => ¬ x ∈ reachSet fs start n)).dedup with _ | ⟨y, t⟩
  · exfalso; apply h; rw [this, he]; simp
  · rw [this, he]
    simp [List.length_append]

theorem reachSet_exists_stable (start : Nat) :
    ∃ k, k ≤ reachBound fs ∧ reachSet fs start (k + 1) = reachSet fs start k := by
  by_contra hc
  push_neg at hc
  have grow : ∀ n, n ≤ reachBound fs + 1 → n + 1 ≤ (reachSet fs start n).length := by
    intro n
    induction n with
    | zero => intro _; simp [reachSet]
    | succ n ih =>
        intro hn
        have hn' : n ≤ reachBound fs := by omega
        have := @reachSet_grow fs start n (hc n hn')
        have := ih (by omega)
        omega
  have h₁ := grow (reachBound fs + 1) (le_refl _)
  have h₂ := @reachSet_length_le fs start (reachBound fs + 1)
  omega

theorem reachSet_complete {start x : Nat} (h : Reaches fs start x) :
    x ∈ reachSet fs start (reachBound fs) := by
  obtain ⟨k, hkB, hk⟩ := @reachSet_exists_stable fs start
  have hstab := @reachSet_stable_step fs start k hk
  have hx : x ∈ reachSet fs start k := by
    induction h with
    | refl =>
        have h0 : start ∈ reachSet fs start 0 := by simp [reachSet]
        exact reachSet_mono (Nat.zero_le k) h0
    | tail hab hbc ih =>
        have : _ ∈ reachSet fs start (k + 1) := mem_stepSet_of_edge ih hbc
        rwa [hk] at this
  rw [hstab (reachBound fs) hkB]
  exact hx

/-- The executable reachability test decides the reflexive-transitive
closure of the dependency-edge relation. -/
theorem reachableB_iff {start target : Nat} :
    reachableB fs start target = true ↔ Reaches fs start target := by
  constructor
  · intro h
    exact reachSet_sound _ _ (by simpa [reachableB] using h)
  · intro h
    simpa [reachableB] using reachSet_complete h

/-- The executable cycle detector decides `HasCycle`. -/
theorem hasCycleB_iff : hasCycleB fs = true ↔ HasCycle fs := by
  constructor
  · intro h
    rcases List.any_eq_true.mp h with ⟨f, hf, hd⟩
    rcases List.any_eq_true.mp hd with ⟨d, hdm, hr⟩
    exact ⟨f.id, Relation.TransGen.head'_iff.mpr ⟨d, hdm, reachableB_iff.mp hr⟩⟩
  · rintro ⟨a, ha⟩
    rcases Relation.TransGen.head'_iff.mp ha with ⟨b, hab, hba⟩
    have hb' : b ∈ depsOf fs a := hab
    rcases hf : fs.find? (fun f => f.id == a) with _ | f
    · simp [depsOf, hf] at hb'
    · have hfid : f.id = a := by simpa using List.find?_some hf
      refine List.any_eq_true.mpr ⟨f, List.mem_of_find?_eq_some hf, ?_⟩
      refine List.any_eq_true.mpr ⟨b, ?_, ?_⟩
      · show b ∈ depsOf fs f.id
        rw [hfid]
        exact hb'
      · rw [hfid]
        exact reachableB_iff.mpr hba

end Reachability

section GraphLemmas

variable {T : Nat → Nat → Prop} {u : Nat} {D : List Nat}

theorem reflTransGen_edgeFrom_decomp {x y : Nat}
    (h : Relation.ReflTransGen (EdgeFrom T u D) x y) :
    Relation.ReflTransGen T x y ∨
      (Relation.ReflTransGen T x u ∧
        ∃ d ∈ D, Relation.ReflTransGen (EdgeFrom T u D) d y) := by
  induction h using Relation.ReflTransGen.head_induction_on with
  | refl => exact Or.inl Relation.ReflTransGen.refl
  | head hxc hcy ih =>
      rcases hxc with hT | ⟨hxu, hcD⟩
      · rcases ih with ih | ⟨ihu, hd⟩
        · exact Or.inl (Relation.ReflTransGen.head hT ih)
        · exact Or.inr ⟨Relation.ReflTransGen.head hT ihu, hd⟩
      · subst hxu
        exact Or.inr ⟨Relation.ReflTransGen.refl, _, hcD, hcy⟩

theorem reflTransGen_edgeFrom_to_source {x : Nat}
    (h : Relation.ReflTransGen (EdgeFrom T u D) x u) :
    Relation.ReflTransGen T x u := by
  rcases reflTransGen_edgeFrom_decomp h with h | ⟨h, _⟩ <;> exact h

theorem no_cycle_edgeFrom
    (hT : ¬ ∃ a, Relation.TransGen T a a)
    (hD : ∀ d ∈ D, ¬ Relation.ReflTransGen (EdgeFrom T u D) d u) :
    ¬ ∃ a, Relation.TransGen (EdgeFrom T u D) a a := by
  rintro ⟨a, ha⟩
  rcases Relation.TransGen.head'_iff.mp ha with ⟨c, hac, hca⟩
  rcases hac with hTac | ⟨hau, hcD⟩
  · rcases reflTransGen_edgeFrom_decomp hca with h | ⟨hcu, d, hd, hda⟩
    · exact hT ⟨a, Relation.TransGen.head' hTac h⟩
    · exact hD d hd (hda.trans (Relation.ReflTransGen.head (Or.inl hTac)
        (hcu.mono (fun a b h => Or.inl h))))
  · subst hau
    exact hD c hcD hca

end GraphLemmas

section UpdateLemmas

theorem find?_updFirst_ne {fs : List Feature} {fid i : Nat} {g : Feature → Feature}
    (hid : ∀ f, (g f).id = f.id) (hne : i ≠ fid) :
    (updFirst fs fid g).find? (fun f => f.id == i) = fs.find? (fun f => f.id == i) := by
  induction fs with
  | nil => rfl
  | cons f rest ih =>
      by_cases hf : f.id = fid
      · have h₁ : (updFirst (f :: rest) fid g) = g f :: rest := by
          simp [updFirst, hf]
        rw [h₁]
        have h₂ : ((g f).id == i) = false := by
          simp [hid f, hf]
          omega
        have h₃ : (f.id == i) = false := by
          simp [hf]
          omega
        simp [List.find?_cons, h₂, h₃]
      · have h₁ : (updFirst (f :: rest) fid g) = f :: updFirst rest fid g := by
          simp [updFirst, hf]
        rw [h₁]
        by_cases hfi : f.id = i
        · simp [List.find?_cons, hfi]
        · have : (f.id == i) = false := by simp [hfi]
          simp [List.find?_cons, this, ih]

theorem find?_updFirst_self (g : Feature → Feature) {fs : List Feature} {fid : Nat}
    (hid : ∀ f, (g f).id = f.id) :
    (updFirst fs fid g).find? (fun f => f.id == fid) =
      (fs.find? (fun f => f.id == fid)).map g := by
  induction fs with
  | nil => rfl
  | cons f rest ih =>
      by_cases hf : f.id = fid
      · have h₁ : (updFirst (f :: rest) fid g) = g f :: rest := by
          simp [updFirst, hf]
        rw [h₁]
        simp [List.find?_cons, hid f, hf]
      · have h₁ : (updFirst (f :: rest) fid g) = f :: updFirst rest fid g := by
          simp [updFirst, hf]
        rw [h₁]
        have : (f.id == fid) = false := by simp [hf]
        simp [List.find?_cons, this, ih]

theorem depsOf_updFirst {fs : List Feature} {fid i : Nat} {g : Feature → Feature}
    (hid : ∀ f, (g f).id = f.id) :
    depsOf (updFirst fs fid g) i =
      if i = fid then
        (Option.map (fun f => (g f).dependencies) (fs.find? (fun f => f.id == fid))).getD []
      else depsOf fs i := by
  by_cases h : i = fid
  · subst h
    simp only [depsOf, find?_updFirst_self _ hid, if_pos rfl, Option.map_map]
    rfl
  · simp [depsOf, find?_updFirst_ne hid h, h]

theorem find?_setDepsAll_ne {fs : List Feature} {fid i : Nat} {ds : List Nat}
    (hne : i ≠ fid) :
    (setDepsAll fs fid ds).find? (fun f => f.id == i) = fs.find? (fun f => f.id == i) := by
  induction fs with
  | nil => rfl
  | cons f rest ih =>
      simp only [setDepsAll, List.map_cons]
      by_cases hf : f.id = fid
      · have h₂ : ((if f.id == fid then { f with dependencies := ds } else f).id == i) = false := by
          simp [hf]
          omega
        have h₃ : (f.id == i) = false := by
          simp [hf]
          omega
        simp only [List.find?_cons, h₂, h₃]
        exact ih
      · have hsk : (if f.id == fid then { f with dependencies := ds } else f) = f := by
          simp [hf]
        rw [hsk]
        by_cases hfi : f.id = i
        · simp [List.find?_cons, hfi]
        · have : (f.id == i) = false := by simp [hfi]
          simp only [List.find?_cons, this]
          exact ih

theorem find?_setDepsAll_self {fs : List Feature} {fid : Nat} {ds : List Nat} :
    (setDepsAll fs fid ds).find? (fun f => f.id == fid) =
      (fs.find? (fun f => f.id == fid)).map (fun f => { f with dependencies := ds }) := by
  induction fs with
  | nil => rfl
  | cons f rest ih =>
      simp only [setDepsAll, List.map_cons]
      by_cases hf : f.id = fid
      · have hsk : (if f.id == fid then { f with dependencies := ds } else f) =
            { f with dependencies := ds } := by simp [hf]
        rw [hsk]
        simp [List.find?_cons, hf]
      · have hsk : (if f.id == fid then { f with dependencies := ds } else f) = f := by
          simp [hf]
        rw [hsk]
        have : (f.id == fid) = false := by simp [hf]
        simp only [List.find?_cons, this]
        exact ih

theorem depsOf_setDepsAll {fs : List Feature} {fid i : Nat} {ds : List Nat}
    (hex : (fs.find? (fun f => f.id == fid)).isSome) :
    depsOf (setDepsAll fs fid ds) i = if i = fid then ds else depsOf fs i := by
  by_cases h : i = fid
  · subst h
    rcases Option.isSome_iff_exists.mp hex with ⟨f, hf⟩
    simp [depsOf, find?_setDepsAll_self, hf]
  · simp [depsOf, find?_setDepsAll_ne h, h]

end UpdateLemmas

section Acyclicity

theorem depsOf_eq_of_find? {fs : List Feature} {fid : Nat} {f : Feature}
    (hf : fs.find? (fun f => f.id == fid) = some f) :
    depsOf fs fid = f.dependencies := by
  simp [depsOf, hf]

theorem mem_sortedNat {l : List Nat} {b : Nat} : b ∈ sortedNat l ↔ b ∈ l :=
  (List.perm_insertionSort _ l).mem_iff

theorem edge_updFirst_iff {fs : List Feature} {fid : Nat} {g : Feature → Feature}
    {f₀ : Feature} (hid : ∀ f, (g f).id = f.id)
    (hf : fs.find? (fun f => f.id == fid) = some f₀) (a b : Nat) :
    Edge (updFirst fs fid g) a b ↔
      (a = fid ∧ b ∈ (g f₀).dependencies) ∨ (a ≠ fid ∧ Edge fs a b) := by
  unfold Edge
  rw [depsOf_updFirst hid]
  by_cases h : a = fid
  · subst h; simp [hf]
  · simp [h]

theorem edge_setDepsAll_iff {fs : List Feature} {fid : Nat} {ds : List Nat}
    {f₀ : Feature} (hf : fs.find? (fun f => f.id == fid) = some f₀) (a b : Nat) :
    Edge (setDepsAll fs fid ds) a b ↔ (a = fid ∧ b ∈ ds) ∨ (a ≠ fid ∧ Edge fs a b) := by
  unfold Edge
  rw [depsOf_setDepsAll (by simp [hf])]
  by_cases h : a = fid <;> simp [h]

theorem hasCycle_to_relation {fs : List Feature} {S : Nat → Nat → Prop}
    (h : ∀ a b, Edge fs a b → S a b) (hc : HasCycle fs) :
    ∃ a, Relation.TransGen S a a := by
  rcases hc with ⟨a, ha⟩
  exact ⟨a, ha.mono (fun x y hxy => h x y hxy)⟩

/-- Successful `add_dependency` preserves acyclicity. -/
theorem noCycle_sqlite_add {fs fs' : List Feature} {fid dep : Nat} {r : List Nat}
    (h : ¬ HasCycle fs)
    (hok : sqlite_add_dependency fs fid dep = Except.ok (fs', r)) :
    ¬ HasCycle fs' := by
  unfold sqlite_add_dependency at hok
  rcases hf : fs.find? (fun f => f.id == fid) with _ | f <;> rw [hf] at hok
  · cases hok
  rcases hd : fs.find? (fun g => g.id == dep) with _ | d <;> rw [hd] at hok
  · cases hok
  dsimp only at hok
  by_cases h1 : fid = dep
  · rw [if_pos h1] at hok; cases hok
  rw [if_neg h1] at hok
  by_cases h2 : MAX_DEPENDENCIES_PER_FEATURE ≤ f.dependencies.length
  · rw [if_pos h2] at hok; cases hok
  rw [if_neg h2] at hok
  by_cases h3 : dep ∈ f.dependencies
  · rw [if_pos h3] at hok; cases hok
  rw [if_neg h3] at hok
  by_cases h4 : would_create_circular_dependency fs fid dep = true
  · rw [if_pos h4] at hok; cases hok
  rw [if_neg h4] at hok
  injection hok with hok'
  injection hok' with hfs' hr
  subst hfs'
  intro hcyc
  have hid : ∀ g : Feature,
      ((fun g : Feature => { g with dependencies := sortedNat (g.dependencies ++ [dep]) }) g).id = g.id :=
    fun g => rfl
  have hnoc := @no_cycle_edgeFrom (Edge fs) fid [dep] h ?_
  · refine hnoc (hasCycle_to_relation ?_ hcyc)
    intro a b hab
    rcases (edge_updFirst_iff hid hf a b).mp hab with ⟨ha, hb⟩ | ⟨ha, hb⟩
    · subst ha
      rcases List.mem_append.mp (mem_sortedNat.mp hb) with hb' | hb'
      · exact Or.inl (by unfold Edge; rw [depsOf_eq_of_find? hf]; exact hb')
      · exact Or.inr ⟨rfl, hb'⟩
    · exact Or.inl hb
  · intro d' hd' hreach
    have hd'' : d' = dep := by simpa using hd'
    subst hd''
    have : Reaches fs d' fid := reflTransGen_edgeFrom_to_source hreach
    exact h4 (by unfold would_create_circular_dependency; exact reachableB_iff.mpr this)

/-- Successful `set_dependencies` preserves acyclicity. -/
theorem noCycle_sqlite_set {fs fs' : List Feature} {fid : Nat} {deps r : List Nat}
    (h : ¬ HasCycle fs)
    (hok : sqlite_set_dependencies fs fid deps = Except.ok (fs', r)) :
    ¬ HasCycle fs' := by
  unfold sqlite_set_dependencies at hok
  by_cases h1 : fid ∈ deps
  · rw [if_pos h1] at hok; cases hok
  rw [if_neg h1] at hok
  by_cases h2 : deps.length = deps.dedup.length
  case neg => rw [if_pos h2] at hok; cases hok
  rw [if_neg (not_not_intro h2)] at hok
  rcases hf : fs.find? (fun f => f.id == fid) with _ | f <;> rw [hf] at hok
  · cases hok
  dsimp only at hok
  by_cases h3 : (deps.filter (fun d => ¬ d ∈ fs.map Feature.id)) = []
  case neg => rw [if_pos h3] at hok; cases hok
  rw [if_neg (not_not_intro h3)] at hok
  by_cases h4 : deps.any (fun d =>
      would_create_circular_dependency (setDepsAll fs fid deps) fid d) = true
  · rw [if_pos h4] at hok; cases hok
  rw [if_neg h4] at hok
  injection hok with hok'
  injection hok' with hfs' hr
  subst hfs'
  intro hcyc
  have hid : ∀ g : Feature,
      ((fun g : Feature => { g with dependencies := sortedNat deps }) g).id = g.id := fun g => rfl
  have hT : ¬ ∃ a, Relation.TransGen (fun a b => a ≠ fid ∧ Edge fs a b) a a := by
    rintro ⟨a, ha⟩
    exact h ⟨a, ha.mono (fun x y hxy => hxy.2)⟩
  have hD : ∀ d ∈ deps,
      ¬ Relation.ReflTransGen (EdgeFrom (fun a b => a ≠ fid ∧ Edge fs a b) fid deps) d fid := by
    intro d hd hreach
    have hw : would_create_circular_dependency (setDepsAll fs fid deps) fid d = true := by
      unfold would_create_circular_dependency
      refine reachableB_iff.mpr ?_
      refine hreach.mono (fun x y hxy => ?_)
      rw [edge_setDepsAll_iff hf x y]
      rcases hxy with hxy | hxy
      · exact Or.inr ⟨hxy.1, hxy.2⟩
      · exact Or.inl hxy
    exact h4 (List.any_eq_true.mpr ⟨d, hd, hw⟩)
  have hnoc := no_cycle_edgeFrom hT hD
  refine hnoc (hasCycle_to_relation ?_ hcyc)
  intro a b hab
  rcases (edge_updFirst_iff hid hf a b).mp hab with ⟨ha, hb⟩ | ⟨ha, hb⟩
  · exact Or.inr ⟨ha, mem_sortedNat.mp hb⟩
  · exact Or.inl ⟨ha, hb⟩

/-- An `add_dependency` call that would close a cycle raises. -/
theorem sqlite_add_closes_cycle_errors {fs : List Feature} {fid dep : Nat}
    (h : ¬ HasCycle fs) (hcyc : HasCycle (addEdgeState fs fid dep)) :
    isError (sqlite_add_dependency fs fid dep) = true := by
  unfold sqlite_add_dependency
  rcases hf : fs.find? (fun f => f.id == fid) with _ | f <;> rw [hf]
  · rfl
  rcases hd : fs.find? (fun g => g.id == dep) with _ | d <;> rw [hd]
  · rfl
  dsimp only
  by_cases h1 : fid = dep
  · rw [if_pos h1]; rfl
  rw [if_neg h1]
  by_cases h2 : MAX_DEPENDENCIES_PER_FEATURE ≤ f.dependencies.length
  · rw [if_pos h2]; rfl
  rw [if_neg h2]
  by_cases h3 : dep ∈ f.dependencies
  · rw [if_pos h3]; rfl
  rw [if_neg h3]
  by_cases h4 : would_create_circular_dependency fs fid dep = true
  · rw [if_pos h4]; rfl
  rw [if_neg h4]
  exfalso
  have hid : ∀ g : Feature,
      ((fun g : Feature => { g with dependencies := g.dependencies ++ [dep] }) g).id = g.id :=
    fun g => rfl
  have hnoc := @no_cycle_edgeFrom (Edge fs) fid [dep] h ?_
  · refine hnoc (hasCycle_to_relation ?_ hcyc)
    intro a b hab
    rcases (edge_updFirst_iff hid hf a b).mp hab with ⟨ha, hb⟩ | ⟨ha, hb⟩
    · subst ha
      rcases List.mem_append.mp hb with hb' | hb'
      · exact Or.inl (by unfold Edge; rw [depsOf_eq_of_find? hf]; exact hb')
      · exact Or.inr ⟨rfl, hb'⟩
    · exact Or.inl hb
  · intro d' hd' hreach
    have hd'' : d' = dep := by simpa using hd'
    subst hd''
    have : Reaches fs d' fid := reflTransGen_edgeFrom_to_source hreach
    exact h4 (by unfold would_create_circular_dependency; exact reachableB_iff.mpr this)

/-- A `set_dependencies` call whose hypothetical post-state has a cycle
raises. -/
theorem sqlite_set_closes_cycle_errors {fs : List Feature} {fid : Nat} {deps : List Nat}
    (h : ¬ HasCycle fs) (hcyc : HasCycle (setDepsAll fs fid deps)) :
    isError (sqlite_set_dependencies fs fid deps) = true := by
  unfold sqlite_set_dependencies
  by_cases h1 : fid ∈ deps
  · rw [if_pos h1]; rfl
  rw [if_neg h1]
  by_cases h2 : deps.length = deps.dedup.length
  case neg => rw [if_pos h2]; rfl
  rw [if_neg (not_not_intro h2)]
  rcases hf : fs.find? (fun f => f.id == fid) with _ | f <;> rw [hf]
  · rfl
  dsimp only
  by_cases h3 : (deps.filter (fun d => ¬ d ∈ fs.map Feature.id)) = []
  case neg => rw [if_pos h3]; rfl
  rw [if_neg (not_not_intro h3)]
  by_cases h4 : deps.any (fun d =>
      would_create_circular_dependency (setDepsAll fs fid deps) fid d) = true
  · rw [if_pos h4]; rfl
  rw [if_neg h4]
  exfalso
  have hT : ¬ ∃ a, Relation.TransGen (fun a b => a ≠ fid ∧ Edge fs a b) a a := by
    rintro ⟨a, ha⟩
    exact h ⟨a, ha.mono (fun x y hxy => hxy.2)⟩
  have hD : ∀ d ∈ deps,
      ¬ Relation.ReflTransGen (EdgeFrom (fun a b => a ≠ fid ∧ Edge fs a b) fid deps) d fid := by
    intro d hd hreach
    have hw : would_create_circular_dependency (setDepsAll fs fid deps) fid d = true := by
      unfold would_create_circular_dependency
      refine reachableB_iff.mpr ?_
      refine hreach.mono (fun x y hxy => ?_)
      rw [edge_setDepsAll_iff hf x y]
      rcases hxy with hxy | hxy
      · exact Or.inr ⟨hxy.1, hxy.2⟩
      · exact Or.inl hxy
    exact h4 (List.any_eq_true.mpr ⟨d, hd, hw⟩)
  have hnoc := no_cycle_edgeFrom hT hD
  refine hnoc (hasCycle_to_relation ?_ hcyc)
  intro a b hab
  rw [edge_setDepsAll_iff hf a b] at hab
  rcases hab with ⟨ha, hb⟩ | ⟨ha, hb⟩
  · exact Or.inr ⟨ha, hb⟩
  · exact Or.inl ⟨ha, hb⟩

/-- Any run of dependency calls preserves acyclicity. -/
theorem noCycle_runDepCalls {fs : List Feature} (calls : List DepCall)
    (h : ¬ HasCycle fs) : ¬ HasCycle (runDepCalls fs calls) := by
  induction calls generalizing fs with
  | nil => exact h
  | cons c cs ih =>
      unfold runDepCalls
      rcases hc : applyDepCall fs c with e | p
      · exact ih h
      · rcases p with ⟨fs', r⟩
        rcases c with ⟨fid, dep⟩ | ⟨fid, deps⟩
        · exact ih (noCycle_sqlite_add h hc)
        · exact ih (noCycle_sqlite_set h hc)

end Acyclicity

section ClaimC1

/-- C1 (amended to the SQLite backend; the Markdown and Convex backends
perform no cycle check, see the counterexample): starting from an acyclic
state, a sequence of `add_dependency` / `set_dependencies` calls — each
successful call taking effect, each failing call leaving the state as it
was (the transaction rolls back, which the `Except` embedding captures by
returning no state) — keeps the dependency graph free of directed cycles;
moreover an `add_dependency` whose hypothetical post-state has a cycle
raises, as does a `set_dependencies` whose hypothetical post-state has a
cycle. -/
theorem sqlite_dependency_acyclicity (fs : List Feature) (calls : List DepCall)
    (h : ¬ HasCycle fs) :
    ¬ HasCycle (runDepCalls fs calls) ∧
    (∀ fid dep, HasCycle (addEdgeState fs fid dep) →
      isError (sqlite_add_dependency fs fid dep) = true) ∧
    (∀ fid deps, HasCycle (setDepsAll fs fid deps) →
      isError (sqlite_set_dependencies fs fid deps) = true) :=
  ⟨noCycle_runDepCalls calls h,
   fun _ _ hc => sqlite_add_closes_cycle_errors h hc,
   fun _ _ hc => sqlite_set_closes_cycle_errors h hc⟩

/-- Witness for C1 at a concrete two-feature project and the call sequence
`add 1 2; add 2 1` (the second call closes a cycle). -/
theorem sqlite_dependency_acyclicity_witness :
    ¬ HasCycle (runDepCalls
      [{ id := 1, priority := 1, category := "c", name := "A" },
       { id := 2, priority := 2, category := "c", name := "B" }]
      [DepCall.add 1 2, DepCall.add 2 1]) ∧
    (∀ fid dep, HasCycle (addEdgeState
      [{ id := 1, priority := 1, category := "c", name := "A" },
       { id := 2, priority := 2, category := "c", name := "B" }] fid dep) →
      isError (sqlite_add_dependency
        [{ id := 1, priority := 1, category := "c", name := "A" },
         { id := 2, priority := 2, category := "c", name := "B" }] fid dep) = true) ∧
    (∀ fid deps, HasCycle (setDepsAll
      [{ id := 1, priority := 1, category := "c", name := "A" },
       { id := 2, priority := 2, category := "c", name := "B" }] fid deps) →
      isError (sqlite_set_dependencies
        [{ id := 1, priority := 1, category := "c", name := "A" },
         { id := 2, priority := 2, category := "c", name := "B" }] fid deps) = true) :=
  sqlite_dependency_acyclicity _ _
    (fun hc => by
      have hb := hasCycleB_iff.mpr hc
      exact absurd hb (by decide))

/-- Counterexample to C1 as stated ("in any backend"): in the Convex
backend the calls `add_dependency 1 2` and then `add_dependency 2 1` both
succeed, and the resulting remote store contains the directed cycle
`1 → 2 → 1`; the cycle-closing call neither fails nor leaves the
dependency sets unchanged. -/
theorem convex_cycle_counterexample :
    convex_add_dependency
      [{ id := 1, priority := 1, category := "c", name := "A" },
       { id := 2, priority := 2, category := "c", name := "B" }] 1 2 =
      Except.ok
        ([{ id := 1, priority := 1, category := "c", name := "A", dependencies := [2] },
          { id := 2, priority := 2, category := "c", name := "B" }], [2]) ∧
    convex_add_dependency
      [{ id := 1, priority := 1, category := "c", name := "A", dependencies := [2] },
       { id := 2, priority := 2, category := "c", name := "B" }] 2 1 =
      Except.ok
        ([{ id := 1, priority := 1, category := "c", name := "A", dependencies := [2] },
          { id := 2, priority := 2, category := "c", name := "B", dependencies := [1] }], [1]) ∧
    HasCycle
      [{ id := 1, priority := 1, category := "c", name := "A", dependencies := [2] },
       { id := 2, priority := 2, category := "c", name := "B", dependencies := [1] }] :=
  ⟨rfl, rfl, hasCycleB_iff.mp (by decide)⟩

end ClaimC1

section ClaimC2

/-- C2 (amended): only the SQLite backend's `add_dependency` fails exactly
under the six spec conditions (feature absent, dependency absent, self-
dependency, dependency already present, cap reached, cycle), succeeding
otherwise with the updated sorted list; the Markdown and Convex backends
fail exactly when the feature id is absent — a duplicate returns the list
unchanged without error and no other condition is checked. -/
theorem add_dependency_error_characterization (fs store : List Feature)
    (file : Option String) (fid dep : Nat) :
    (isError (sqlite_add_dependency fs fid dep) = true ↔
      (fs.find? (fun f => f.id == fid) = none ∨
       fs.find? (fun g => g.id == dep) = none ∨
       fid = dep ∨
       MAX_DEPENDENCIES_PER_FEATURE ≤ (depsOf fs fid).length ∨
       dep ∈ depsOf fs fid ∨
       would_create_circular_dependency fs fid dep = true)) ∧
    (isError (sqlite_add_dependency fs fid dep) = false →
      sqlite_add_dependency fs fid dep =
        Except.ok
          (updFirst fs fid
            (fun g => { g with dependencies := sortedNat (g.dependencies ++ [dep]) }),
           sortedNat (depsOf fs fid ++ [dep]))) ∧
    (isError (md_add_dependency file fid dep) = true ↔
      (md_read_features file).find? (fun f => f.id == fid) = none) ∧
    (isError (convex_add_dependency store fid dep) = true ↔
      store.find? (fun f => f.id == fid) = none) := by
  refine ⟨?_, ?_, ?_, ?_⟩
  · unfold sqlite_add_dependency
    rcases hf : fs.find? (fun f => f.id == fid) with _ | f
    · simp [isError, hf]
    rcases hd : fs.find? (fun g => g.id == dep) with _ | d
    · simp [isError, hf, hd]
    rw [hf, hd]
    dsimp only
    rw [depsOf_eq_of_find? hf]
    by_cases h1 : fid = dep
    · rw [if_pos h1]; simp [isError, hf, hd, h1]
    rw [if_neg h1]
    by_cases h2 : MAX_DEPENDENCIES_PER_FEATURE ≤ f.dependencies.length
    · rw [if_pos h2]; simp [isError, hf, hd, h1, h2]
    rw [if_neg h2]
    by_cases h3 : dep ∈ f.dependencies
    · rw [if_pos h3]; simp [isError, hf, hd, h1, h2, h3]
    rw [if_neg h3]
    by_cases h4 : would_create_circular_dependency fs fid dep = true
    · rw [if_pos h4]; simp [isError, hf, hd, h1, h2, h3, h4]
    rw [if_neg h4]
    simp [isError, hf, hd, h1, h2, h3, h4]
  · intro hok
    unfold sqlite_add_dependency at hok ⊢
    rcases hf : fs.find? (fun f => f.id == fid) with _ | f <;> rw [hf] at hok ⊢
    · simp [isError] at hok
    rcases hd : fs.find? (fun g => g.id == dep) with _ | d <;> rw [hd] at hok ⊢
    · simp [isError] at hok
    dsimp only at hok ⊢
    by_cases h1 : fid = dep
    · rw [if_pos h1] at hok; simp [isError] at hok
    rw [if_neg h1] at hok ⊢
    by_cases h2 : MAX_DEPENDENCIES_PER_FEATURE ≤ f.dependencies.length
    · rw [if_pos h2] at hok; simp [isError] at hok
    rw [if_neg h2] at hok ⊢
    by_cases h3 : dep ∈ f.dependencies
    · rw [if_pos h3] at hok; simp [isError] at hok
    rw [if_neg h3] at hok ⊢
    by_cases h4 : would_create_circular_dependency fs fid dep = true
    · rw [if_pos h4] at hok; simp [isError] at hok
    rw [if_neg h4] at hok ⊢
    rw [depsOf_eq_of_find? hf]
  · unfold md_add_dependency
    rcases hf : (md_read_features file).find? (fun f => f.id == fid) with _ | f <;>
      simp only [hf]
    · simp [isError]
    · by_cases h1 : dep ∈ f.dependencies
      · rw [if_pos h1]; simp [isError]
      · rw [if_neg h1]; simp [isError]
  · unfold convex_add_dependency convex_get_feature
    rcases hf : store.find? (fun f => f.id == fid) with _ | f <;>
      simp only [hf]
    · simp [isError]
    · by_cases h1 : dep ∈ f.dependencies
      · rw [if_pos h1]; simp [isError]
      · rw [if_neg h1]; simp [isError]

/-- Witness for C2's success clause at a concrete two-feature project:
`add_dependency 1 2` succeeds and returns `[2]`. -/
theorem add_dependency_error_characterization_witness :
    isError (sqlite_add_dependency
      [{ id := 1, priority := 1, category := "c", name := "A" },
       { id := 2, priority := 2, category := "c", name := "B" }] 1 2) = false ∧
    sqlite_add_dependency
      [{ id := 1, priority := 1, category := "c", name := "A" },
       { id := 2, priority := 2, category := "c", name := "B" }] 1 2 =
      Except.ok
        (updFirst
          [{ id := 1, priority := 1, category := "c", name := "A" },
           { id := 2, priority := 2, category := "c", name := "B" }] 1
          (fun g => { g with dependencies := sortedNat (g.dependencies ++ [2]) }),
         sortedNat (depsOf
           [{ id := 1, priority := 1, category := "c", name := "A" },
            { id := 2, priority := 2, category := "c", name := "B" }] 1 ++ [2])) :=
  ⟨by decide,
   (add_dependency_error_characterization
      [{ id := 1, priority := 1, category := "c", name := "A" },
       { id := 2, priority := 2, category := "c", name := "B" }]
      [] none 1 2).2.1 (by decide)⟩

/-- Counterexample to C2 as stated: in the Markdown backend,
`add_dependency 1 1` (a self-dependency, which the claim requires to fail)
succeeds and returns `[1]`. -/
theorem md_add_dependency_self_counterexample :
    md_add_dependency (some "# A\n- [ ] x <!-- id: 1 -->") 1 1 =
      Except.ok (some "# A\n\n- [ ] x <!-- id: 1 -->\n", [1]) := by
  rfl

end ClaimC2

section ClaimC3

theorem mem_passingIds {fs : List Feature} {x : Nat} :
    x ∈ passingIds fs ↔ ∃ f ∈ fs, f.passes = true ∧ f.id = x := by
  simp [passingIds]
  constructor
  · rintro ⟨f, ⟨hf, hp⟩, hx⟩
    exact ⟨f, hf, hp, hx⟩
  · rintro ⟨f, hf, hp, hx⟩
    exact ⟨f, ⟨hf, hp⟩, hx⟩

theorem mem_passingIds_sortByPriority {fs : List Feature} {x : Nat} :
    x ∈ passingIds (sortByPriority fs) ↔ x ∈ passingIds fs := by
  unfold passingIds
  exact (((List.perm_insertionSort _ fs).filter _).map _).mem_iff

theorem resp_blocking {f : Feature} {ids : List Nat} :
    (feature_to_response f (some ids)).blocking_dependencies =
      f.dependencies.filter (fun k => ¬ k ∈ ids) := rfl

theorem resp_dependencies {f : Feature} {ids : List Nat} :
    (feature_to_response f (some ids)).dependencies = f.dependencies := rfl

theorem resp_blocked_iff {f : Feature} {ids : List Nat} :
    (feature_to_response f (some ids)).blocked = true ↔
      ∃ k ∈ f.dependencies, ¬ k ∈ ids := by
  show (!(f.dependencies.filter (fun k => ¬ k ∈ ids)).isEmpty) = true ↔ _
  rw [Bool.not_eq_true', List.isEmpty_eq_false_iff_exists_mem]
  constructor
  · rintro ⟨k, hk⟩
    rw [List.mem_filter] at hk
    exact ⟨k, hk.1, by simpa using hk.2⟩
  · rintro ⟨k, hk, hnk⟩
    exact ⟨k, List.mem_filter.mpr ⟨hk, by simpa using hnk⟩⟩

theorem bucketize_pending_mem {p : List Nat} {l : List Feature} {r : Feature} :
    r ∈ (bucketize p l).pending ↔
      ∃ f ∈ l, (f.passes = false ∧ f.in_progress = false) ∧
        r = feature_to_response f (some p) := by
  induction l with
  | nil => simp [bucketize]
  | cons f rest ih =>
      rcases hp : f.passes with _ | _ <;> rcases hi : f.in_progress with _ | _ <;>
        simp [bucketize, hp, hi, ih]

theorem bucketize_in_progress_mem {p : List Nat} {l : List Feature} {r : Feature} :
    r ∈ (bucketize p l).in_progress ↔
      ∃ f ∈ l, (f.passes = false ∧ f.in_progress = true) ∧
        r = feature_to_response f (some p) := by
  induction l with
  | nil => simp [bucketize]
  | cons f rest ih =>
      rcases hp : f.passes with _ | _ <;> rcases hi : f.in_progress with _ | _ <;>
        simp [bucketize, hp, hi, ih]

theorem bucketize_done_mem {p : List Nat} {l : List Feature} {r : Feature} :
    r ∈ (bucketize p l).done ↔
      ∃ f ∈ l, f.passes = true ∧ r = feature_to_response f (some p) := by
  induction l with
  | nil => simp [bucketize]
  | cons f rest ih =>
      rcases hp : f.passes with _ | _ <;> rcases hi : f.in_progress with _ | _ <;>
        simp [bucketize, hp, hi, ih]

theorem mem_passingIds_setPasses {fs : List Feature} {d x : Nat}
    (hd : ∃ f ∈ fs, f.id = d) :
    x ∈ passingIds (setPasses fs d) ↔ x ∈ passingIds fs ∨ x = d := by
  simp only [mem_passingIds, setPasses, List.mem_map]
  constructor
  · rintro ⟨g, ⟨f, hf, rfl⟩, hp, hx⟩
    by_cases h : f.id = d
    · right
      have hb : (f.id == d) = true := by simpa using h
      rw [if_pos hb] at hx
      have hfx : f.id = x := hx
      omega
    · left
      have hb : ¬ ((f.id == d) = true) := by simpa using h
      rw [if_neg hb] at hp hx
      exact ⟨f, hf, hp, hx⟩
  · rintro (⟨f, hf, hp, hx⟩ | hx)
    · by_cases h : f.id = d
      · have hb : (f.id == d) = true := by simpa using h
        refine ⟨{ f with passes := true }, ⟨f, hf, by rw [if_pos hb]⟩, rfl, ?_⟩
        exact hx
      · have hb : ¬ ((f.id == d) = true) := by simpa using h
        exact ⟨f, ⟨f, hf, by rw [if_neg hb]⟩, hp, hx⟩
    · rcases hd with ⟨f, hf, hfd⟩
      have hb : (f.id == d) = true := by simpa using hfd
      refine ⟨{ f with passes := true }, ⟨f, hf, by rw [if_pos hb]⟩, rfl, ?_⟩
      show f.id = x
      omega

/-- C3 (amended): in the SQLite backend, `list_features` and
`update_feature` responses derive `blocked` and `blocking_dependencies`
from the passing-id set — `blocked` iff some dependency id is not the id
of a passing feature, `blocking_dependencies` exactly the offending ids —
and flipping a blocking dependency's `passes` to true removes exactly that
id from every blocking set while touching no other field of any feature;
`get_feature`, however, always reports `blocked=false` and
`blocking_dependencies=[]` (it passes `passing_ids=None`). -/
theorem sqlite_blocked_derivation (fs : List Feature) (fid d : Nat) :
    (∀ r, (r ∈ (sqlite_list_features fs).pending ∨
           r ∈ (sqlite_list_features fs).in_progress ∨
           r ∈ (sqlite_list_features fs).done) →
      (r.blocked = true ↔ ∃ k ∈ r.dependencies, ¬ k ∈ passingIds fs) ∧
      r.blocking_dependencies = r.dependencies.filter (fun k => ¬ k ∈ passingIds fs)) ∧
    (∀ u fs' r, sqlite_update_feature fs fid u = Except.ok (fs', r) →
      (r.blocked = true ↔ ∃ k ∈ r.dependencies, ¬ k ∈ passingIds fs') ∧
      r.blocking_dependencies = r.dependencies.filter (fun k => ¬ k ∈ passingIds fs')) ∧
    (∀ r, sqlite_get_feature fs fid = some r →
      r.blocked = false ∧ r.blocking_dependencies = []) ∧
    ((∃ f ∈ fs, f.id = d) → ∀ f ∈ fs,
      (feature_to_response f (some (passingIds (setPasses fs d)))).blocking_dependencies =
        ((feature_to_response f (some (passingIds fs))).blocking_dependencies).filter
          (fun k => ¬ k = d)) ∧
    (∀ f ∈ fs, (f.id = d → { f with passes := true } ∈ setPasses fs d) ∧
               (¬ f.id = d → f ∈ setPasses fs d)) := by
  refine ⟨?_, ?_, ?_, ?_, ?_⟩
  · intro r hr
    have hex : ∃ f, f ∈ fs ∧ r = feature_to_response f
        (some (passingIds (sortByPriority fs))) := by
      rcases hr with hr | hr | hr
      · rcases bucketize_pending_mem.mp hr with ⟨f, hf, _, hrf⟩
        exact ⟨f, (List.perm_insertionSort _ fs).mem_iff.mp hf, hrf⟩
      · rcases bucketize_in_progress_mem.mp hr with ⟨f, hf, _, hrf⟩
        exact ⟨f, (List.perm_insertionSort _ fs).mem_iff.mp hf, hrf⟩
      · rcases bucketize_done_mem.mp hr with ⟨f, hf, _, hrf⟩
        exact ⟨f, (List.perm_insertionSort _ fs).mem_iff.mp hf, hrf⟩
    rcases hex with ⟨f, _, hrf⟩
    subst hrf
    constructor
    · rw [resp_blocked_iff, resp_dependencies]
      constructor
      · rintro ⟨k, hk, hnk⟩
        exact ⟨k, hk, fun hmem => hnk (mem_passingIds_sortByPriority.mpr hmem)⟩
      · rintro ⟨k, hk, hnk⟩
        exact ⟨k, hk, fun hmem => hnk (mem_passingIds_sortByPriority.mp hmem)⟩
    · rw [resp_blocking, resp_dependencies]
      refine List.filter_congr ?_
      intro k _
      simp [mem_passingIds_sortByPriority]
  · intro u fs' r hok
    unfold sqlite_update_feature at hok
    rcases hf : fs.find? (fun f => f.id == fid) with _ | f <;> rw [hf] at hok
    · cases hok
    dsimp only at hok
    by_cases hp : f.passes = true
    · rw [if_pos hp] at hok; cases hok
    rw [if_neg hp] at hok
    injection hok with hok'
    injection hok' with hfs' hr
    subst hfs'
    subst hr
    exact ⟨resp_blocked_iff, resp_blocking⟩
  · intro r hr
    unfold sqlite_get_feature at hr
    rcases hf : fs.find? (fun f => f.id == fid) with _ | f <;> rw [hf] at hr
    · cases hr
    injection hr with hr
    subst hr
    exact ⟨rfl, rfl⟩
  · intro hd f _
    rw [resp_blocking, resp_blocking, List.filter_filter]
    refine List.filter_congr ?_
    intro k _
    have hiff := @mem_passingIds_setPasses fs d k hd
    by_cases h1 : k ∈ passingIds fs <;> by_cases h2 : k = d <;>
      simp only [hiff] <;> simp [h1, h2]
  · intro f hf
    constructor
    · intro hfd
      exact List.mem_map.mpr ⟨f, hf, by rw [if_pos (by simpa using hfd)]⟩
    · intro hfd
      exact List.mem_map.mpr ⟨f, hf, by rw [if_neg (by simpa using hfd)]⟩

/-- Witness for C3 at a concrete project: feature 2 depends on the
non-passing feature 1; its `list_features` response is blocked, and
flipping feature 1's `passes` unblocks it. -/
theorem sqlite_blocked_derivation_witness :
    (∀ r, (r ∈ (sqlite_list_features
             [{ id := 1, priority := 1, category := "c", name := "A" },
              { id := 2, priority := 2, category := "c", name := "B",
                dependencies := [1] }]).pending ∨
           r ∈ (sqlite_list_features
             [{ id := 1, priority := 1, category := "c", name := "A" },
              { id := 2, priority := 2, category := "c", name := "B",
                dependencies := [1] }]).in_progress ∨
           r ∈ (sqlite_list_features
             [{ id := 1, priority := 1, category := "c", name := "A" },
              { id := 2, priority := 2, category := "c", name := "B",
                dependencies := [1] }]).done) →
      (r.blocked = true ↔ ∃ k ∈ r.dependencies, ¬ k ∈ passingIds
             [{ id := 1, priority := 1, category := "c", name := "A" },
              { id := 2, priority := 2, category := "c", name := "B",
                dependencies := [1] }]) ∧
      r.blocking_dependencies = r.dependencies.filter (fun k => ¬ k ∈ passingIds
             [{ id := 1, priority := 1, category := "c", name := "A" },
              { id := 2, priority := 2, category := "c", name := "B",
                dependencies := [1] }])) ∧
    ((∃ f ∈ [{ id := 1, priority := 1, category := "c", name := "A" },
             { id := 2, priority := 2, category := "c", name := "B",
               dependencies := [1] }], Feature.id f = 1) →
      ∀ f ∈ [{ id := 1, priority := 1, category := "c", name := "A" },
             { id := 2, priority := 2, category := "c", name := "B",
               dependencies := [1] }],
      (feature_to_response f (some (passingIds (setPasses
             [{ id := 1, priority := 1, category := "c", name := "A" },
              { id := 2, priority := 2, category := "c", name := "B",
                dependencies := [1] }] 1)))).blocking_dependencies =
        ((feature_to_response f (some (passingIds
             [{ id := 1, priority := 1, category := "c", name := "A" },
              { id := 2, priority := 2, category := "c", name := "B",
                dependencies := [1] }]))).blocking_dependencies).filter
          (fun k => ¬ k = 1)) :=
  ⟨(sqlite_blocked_derivation
      [{ id := 1, priority := 1, category := "c", name := "A" },
       { id := 2, priority := 2, category := "c", name := "B",
         dependencies := [1] }] 2 1).1,
   (sqlite_blocked_derivation
      [{ id := 1, priority := 1, category := "c", name := "A" },
       { id := 2, priority := 2, category := "c", name := "B",
         dependencies := [1] }] 2 1).2.2.2.1⟩

/-- Counterexample to C3 as stated: `get_feature` on feature 2, whose only
dependency (feature 1) has `passes=false`, reports `blocked=false` and an
empty blocking set. -/
theorem sqlite_get_feature_blocked_counterexample :
    sqlite_get_feature
      [{ id := 1, priority := 1, category := "c", name := "A" },
       { id := 2, priority := 2, category := "c", name := "B",
         dependencies := [1] }] 2 =
      some { id := 2, priority := 2, category := "c", name := "B",
             dependencies := [1], blocked := false, blocking_dependencies := [] } ∧
    ({ id := 1, priority := 1, category := "c", name := "A" } : Feature).passes = false :=
  ⟨rfl, rfl⟩

end ClaimC3

section ClaimC4

theorem resp_passes {f : Feature} {ids : List Nat} :
    (feature_to_response f (some ids)).passes = f.passes := rfl

theorem resp_in_progress {f : Feature} {ids : List Nat} :
    (feature_to_response f (some ids)).in_progress = f.in_progress := rfl

theorem resp_priority {f : Feature} {ids : List Nat} :
    (feature_to_response f (some ids)).priority = f.priority := rfl

theorem three_filter_perm {α : Type} (L : List α) (passB inB : α → Bool) :
    (L.filter (fun x => !passB x && !inB x) ++
      (L.filter (fun x => inB x && !passB x) ++ L.filter passB)).Perm L := by
  have e1 : L.filter (fun x => inB x && !passB x)
      = (L.filter (fun x => !passB x)).filter inB := by
    rw [List.filter_filter]
  have e2 : L.filter (fun x => !passB x && !inB x)
      = (L.filter (fun x => !passB x)).filter (fun x => !inB x) := by
    rw [List.filter_filter]
    refine (List.filter_congr ?_).symm
    intro a _
    rw [Bool.and_comm]
  rw [← List.append_assoc, e1, e2]
  have hin : ((L.filter (fun x => !passB x)).filter (fun x => !inB x) ++
      (L.filter (fun x => !passB x)).filter inB).Perm
        (L.filter (fun x => !passB x)) :=
    List.perm_append_comm.trans (List.filter_append_perm inB _)
  have hdone : (L.filter (fun x => !passB x) ++ L.filter passB).Perm L :=
    List.perm_append_comm.trans (List.filter_append_perm passB L)
  exact (hin.append_right _).trans hdone

theorem bucketize_eq (p : List Nat) (l : List Feature) :
    bucketize p l =
      ⟨(l.map (fun f => feature_to_response f (some p))).filter
          (fun r => !r.passes && !r.in_progress),
       (l.map (fun f => feature_to_response f (some p))).filter
          (fun r => r.in_progress && !r.passes),
       (l.map (fun f => feature_to_response f (some p))).filter
          (fun r => r.passes)⟩ := by
  induction l with
  | nil => rfl
  | cons f rest ih =>
      rcases hp : f.passes with _ | _ <;> rcases hi : f.in_progress with _ | _ <;>
        simp [bucketize, ih, hp, hi, List.filter_cons, resp_passes, resp_in_progress]

theorem convexBucketize_eq (l : List Feature) :
    convexBucketize l =
      ⟨(l.map feature_from_convex).filter (fun r => !r.passes && !r.in_progress),
       (l.map feature_from_convex).filter (fun r => r.in_progress && !r.passes),
       (l.map feature_from_convex).filter (fun r => r.passes)⟩ := by
  induction l with
  | nil => rfl
  | cons f rest ih =>
      rcases hp : f.passes with _ | _ <;> rcases hi : f.in_progress with _ | _ <;>
        simp [convexBucketize, ih, hp, hi, List.filter_cons, feature_from_convex]

theorem prioSorted_sortByPriority (fs : List Feature) :
    PrioSorted (sortByPriority fs) :=
  List.sorted_insertionSort _ fs

theorem prioSorted_filter (p : Feature → Bool) {l : List Feature}
    (h : PrioSorted l) : PrioSorted (l.filter p) :=
  List.Pairwise.filter p h

theorem prioSorted_map_resp {l : List Feature} {ids : List Nat}
    (h : PrioSorted l) :
    PrioSorted (l.map (fun f => feature_to_response f (some ids))) := by
  rw [PrioSorted, List.pairwise_map]
  exact h.imp (fun hab => by simpa [resp_priority] using hab)

theorem prioSorted_map_convex {l : List Feature} (h : PrioSorted l) :
    PrioSorted (l.map feature_from_convex) := by
  rw [PrioSorted, List.pairwise_map]
  exact h.imp (fun hab => hab)

/-- C4 (confirmed; the Convex remote `features:list` is spec-modelled as
priority-ascending): in all three backends the `list_features` buckets are
a strict partition — their concatenation is a permutation of all converted
features of the project — `done` holds exactly the responses with
`passes=true`, `in_progress` exactly those with `in_progress=true` and
`passes=false`, `pending` exactly the rest, and every bucket is ascending
by priority. -/
theorem list_features_partition (fs store : List Feature) (file : Option String) :
    (((sqlite_list_features fs).pending ++
      ((sqlite_list_features fs).in_progress ++ (sqlite_list_features fs).done)).Perm
        (sqlite_all_responses fs) ∧
     (∀ r ∈ (sqlite_list_features fs).done, r.passes = true) ∧
     (∀ r ∈ (sqlite_list_features fs).in_progress,
        r.in_progress = true ∧ r.passes = false) ∧
     (∀ r ∈ (sqlite_list_features fs).pending,
        r.passes = false ∧ r.in_progress = false) ∧
     PrioSorted (sqlite_list_features fs).pending ∧
     PrioSorted (sqlite_list_features fs).in_progress ∧
     PrioSorted (sqlite_list_features fs).done) ∧
    (((md_list_features file).pending ++
      ((md_list_features file).in_progress ++ (md_list_features file).done)).Perm
        (md_read_features file) ∧
     (∀ r ∈ (md_list_features file).done, r.passes = true) ∧
     (∀ r ∈ (md_list_features file).in_progress,
        r.in_progress = true ∧ r.passes = false) ∧
     (∀ r ∈ (md_list_features file).pending,
        r.passes = false ∧ r.in_progress = false) ∧
     PrioSorted (md_list_features file).pending ∧
     PrioSorted (md_list_features file).in_progress ∧
     PrioSorted (md_list_features file).done) ∧
    (((convex_list_features store).pending ++
      ((convex_list_features store).in_progress ++ (convex_list_features store).done)).Perm
        ((convex_features_list store).map feature_from_convex) ∧
     (∀ r ∈ (convex_list_features store).done, r.passes = true) ∧
     (∀ r ∈ (convex_list_features store).in_progress,
        r.in_progress = true ∧ r.passes = false) ∧
     (∀ r ∈ (convex_list_features store).pending,
        r.passes = false ∧ r.in_progress = false) ∧
     PrioSorted (convex_list_features store).pending ∧
     PrioSorted (convex_list_features store).in_progress ∧
     PrioSorted (convex_list_features store).done) := by
  refine ⟨?_, ?_, ?_⟩
  · have hb := bucketize_eq (passingIds (sortByPriority fs)) (sortByPriority fs)
    have hsorted := @prioSorted_map_resp (sortByPriority fs)
      (passingIds (sortByPriority fs)) (prioSorted_sortByPriority fs)
    refine ⟨?_, ?_, ?_, ?_, ?_, ?_, ?_⟩
    · rw [show (sqlite_list_features fs).pending = _ from congrArg FeatureLists.pending hb,
          show (sqlite_list_features fs).in_progress = _ from
            congrArg FeatureLists.in_progress hb,
          show (sqlite_list_features fs).done = _ from congrArg FeatureLists.done hb]
      exact three_filter_perm _ _ _
    · intro r hr
      rw [show (sqlite_list_features fs).done = _ from congrArg FeatureLists.done hb]
        at hr
      exact List.of_mem_filter hr
    · intro r hr
      rw [show (sqlite_list_features fs).in_progress = _ from
        congrArg FeatureLists.in_progress hb] at hr
      have := List.of_mem_filter hr
      simp at this
      exact this
    · intro r hr
      rw [show (sqlite_list_features fs).pending = _ from
        congrArg FeatureLists.pending hb] at hr
      have := List.of_mem_filter hr
      simp at this
      exact this
    · rw [show (sqlite_list_features fs).pending = _ from
        congrArg FeatureLists.pending hb]
      exact prioSorted_filter _ hsorted
    · rw [show (sqlite_list_features fs).in_progress = _ from
        congrArg FeatureLists.in_progress hb]
      exact prioSorted_filter _ hsorted
    · rw [show (sqlite_list_features fs).done = _ from
        congrArg FeatureLists.done hb]
      exact prioSorted_filter _ hsorted
  · have hsorted : PrioSorted (sortByPriority (md_read_features file)) :=
      prioSorted_sortByPriority _
    refine ⟨?_, ?_, ?_, ?_, ?_, ?_, ?_⟩
    · exact (three_filter_perm (sortByPriority (md_read_features file)) _ _).trans
        (List.perm_insertionSort _ _)
    · intro r hr
      exact List.of_mem_filter hr
    · intro r hr
      have := List.of_mem_filter hr
      simp at this
      exact this
    · intro r hr
      have := List.of_mem_filter hr
      simp at this
      exact this
    · exact prioSorted_filter _ hsorted
    · exact prioSorted_filter _ hsorted
    · exact prioSorted_filter _ hsorted
  · have hb := convexBucketize_eq (convex_features_list store)
    have hsorted : PrioSorted ((convex_features_list store).map feature_from_convex) :=
      prioSorted_map_convex (prioSorted_sortByPriority store)
    refine ⟨?_, ?_, ?_, ?_, ?_, ?_, ?_⟩
    · rw [show (convex_list_features store).pending = _ from
            congrArg FeatureLists.pending hb,
          show (convex_list_features store).in_progress = _ from
            congrArg FeatureLists.in_progress hb,
          show (convex_list_features store).done = _ from congrArg FeatureLists.done hb]
      exact three_filter_perm _ _ _
    · intro r hr
      rw [show (convex_list_features store).done = _ from
        congrArg FeatureLists.done hb] at hr
      exact List.of_mem_filter hr
    · intro r hr
      rw [show (convex_list_features store).in_progress = _ from
        congrArg FeatureLists.in_progress hb] at hr
      have := List.of_mem_filter hr
      simp at this
      exact this
    · intro r hr
      rw [show (convex_list_features store).pending = _ from
        congrArg FeatureLists.pending hb] at hr
      have := List.of_mem_filter hr
      simp at this
      exact this
    · rw [show (convex_list_features store).pending = _ from
        congrArg FeatureLists.pending hb]
      exact prioSorted_filter _ hsorted
    · rw [show (convex_list_features store).in_progress = _ from
        congrArg FeatureLists.in_progress hb]
      exact prioSorted_filter _ hsorted
    · rw [show (convex_list_features store).done = _ from
        congrArg FeatureLists.done hb]
      exact prioSorted_filter _ hsorted

end ClaimC4

section ClaimC5

theorem stripDep_eq (fid : Nat) (f : Feature) :
    stripDep fid f =
      { f with dependencies := f.dependencies.filter (fun d => d ≠ fid) } := by
  unfold stripDep
  by_cases h : fid ∈ f.dependencies
  · rw [if_pos h]
  · rw [if_neg h]
    have : f.dependencies.filter (fun d => d ≠ fid) = f.dependencies := by
      refine List.filter_eq_self.mpr ?_
      intro a ha
      simp
      intro had
      exact h (had ▸ ha)
    rw [show ({ f with dependencies := f.dependencies.filter (fun d => d ≠ fid) } : Feature)
      = { f with dependencies := f.dependencies } from by rw [this]]

theorem removeFirstById_eq_filter {fs : List Feature} {fid : Nat}
    (h : NodupIds fs) :
    removeFirstById fs fid = fs.filter (fun f => ¬ f.id == fid) := by
  induction fs with
  | nil => rfl
  | cons f rest ih =>
      unfold NodupIds at h
      rw [List.map_cons, List.nodup_cons] at h
      by_cases hf : f.id = fid
      · have hb : (f.id == fid) = true := by simpa using hf
        unfold removeFirstById
        rw [if_pos hb]
        rw [List.filter_cons_of_neg (by simp [hb])]
        refine (List.filter_eq_self.mpr ?_).symm
        intro g hg
        have hne : ¬ g.id = fid := fun hgid =>
          h.1 (List.mem_map.mpr ⟨g, hg, by rw [hgid, hf]⟩)
        simp [hne]
      · have hb : ¬ ((f.id == fid) = true) := by simpa using hf
        unfold removeFirstById
        rw [if_neg hb]
        rw [List.filter_cons_of_pos (by simpa using hf)]
        rw [ih h.2]

theorem nodupIds_map_stripDep {fs : List Feature} {fid : Nat} (h : NodupIds fs) :
    NodupIds (fs.map (stripDep fid)) := by
  unfold NodupIds at h ⊢
  rw [List.map_map]
  have : (Feature.id ∘ stripDep fid) = Feature.id := by
    funext f
    show (stripDep fid f).id = f.id
    rw [stripDep_eq]
  rw [this]
  exact h

/-- C5 (amended): the SQLite backend satisfies the claim — deletion of a
missing id raises; a successful deletion removes the feature, strips its
id from every remaining feature's dependency list, and reports exactly the
ids of the features whose dependency lists contained it.  The Markdown
backend instead signals a missing id by returning `success=False` without
raising, and on success performs no dependency cleanup and reports no
affected features (its parsed features carry no dependencies). -/
theorem delete_feature_cascade (fs : List Feature) (file : Option String) (fid : Nat)
    (h : NodupIds fs) :
    (fs.find? (fun f => f.id == fid) = none →
      isError (sqlite_delete_feature fs fid) = true) ∧
    (∀ f, fs.find? (fun f => f.id == fid) = some f →
      sqlite_delete_feature fs fid =
        Except.ok
          ((fs.filter (fun g => ¬ g.id == fid)).map
             (fun g => { g with dependencies := g.dependencies.filter (fun d => d ≠ fid) }),
           ⟨true, (fs.filter (fun g => fid ∈ g.dependencies)).map Feature.id⟩)) ∧
    (∀ fs' res, sqlite_delete_feature fs fid = Except.ok (fs', res) →
      ∀ g ∈ fs', ¬ fid ∈ g.dependencies ∧ ¬ g.id = fid) ∧
    ((md_read_features file).find? (fun f => f.id == fid) = none →
      md_delete_feature file fid = Except.ok (file, ⟨false, none⟩)) := by
  have hsucc : ∀ f, fs.find? (fun f => f.id == fid) = some f →
      sqlite_delete_feature fs fid =
        Except.ok
          ((fs.filter (fun g => ¬ g.id == fid)).map
             (fun g => { g with dependencies := g.dependencies.filter (fun d => d ≠ fid) }),
           ⟨true, (fs.filter (fun g => fid ∈ g.dependencies)).map Feature.id⟩) := by
    intro f hf
    unfold sqlite_delete_feature
    rw [hf]
    dsimp only
    have h1 : removeFirstById (fs.map (stripDep fid)) fid =
        (fs.map (stripDep fid)).filter (fun g => ¬ g.id == fid) :=
      removeFirstById_eq_filter (nodupIds_map_stripDep h)
    have h2 : (fs.map (stripDep fid)).filter (fun g => ¬ g.id == fid) =
        (fs.filter (fun g => ¬ g.id == fid)).map (stripDep fid) := by
      rw [List.filter_map]
      congr 1
      refine List.filter_congr ?_
      intro g _
      show (decide (¬ (stripDep fid g).id == fid)) = (decide (¬ g.id == fid))
      rw [stripDep_eq]
    have h3 : (fs.filter (fun g => ¬ g.id == fid)).map (stripDep fid) =
        (fs.filter (fun g => ¬ g.id == fid)).map
          (fun g => { g with dependencies := g.dependencies.filter (fun d => d ≠ fid) }) :=
      List.map_congr_left (fun g _ => stripDep_eq fid g)
    rw [h1, h2, h3]
  refine ⟨?_, hsucc, ?_, ?_⟩
  · intro hf
    unfold sqlite_delete_feature
    rw [hf]
    rfl
  · intro fs' res hok g hg
    rcases hfind : fs.find? (fun f => f.id == fid) with _ | f
    · unfold sqlite_delete_feature at hok
      rw [hfind] at hok
      cases hok
    · rw [hsucc f hfind] at hok
      injection hok with hok'
      injection hok' with hfs' hres
      subst hfs'
      rcases List.mem_map.mp hg with ⟨g₀, hg₀, rfl⟩
      have hid : ¬ g₀.id = fid := by
        have := List.of_mem_filter hg₀
        simpa using this
      refine ⟨?_, by simpa using hid⟩
      show ¬ fid ∈ g₀.dependencies.filter (fun d => d ≠ fid)
      intro hmem
      have := List.of_mem_filter hmem
      simp at this
  · intro hf
    have heq : (md_read_features file).filter (fun f => ¬ f.id == fid) =
        md_read_features file := by
      refine List.filter_eq_self.mpr ?_
      intro g hg
      have := List.find?_eq_none.mp hf g hg
      simpa using this
    show (let features := md_read_features file
          let newList := features.filter (fun f => ¬ f.id == fid)
          if newList.length = features.length then
            Except.ok (file, (⟨false, none⟩ : MdDeleteResult))
          else Except.ok (md_save newList, ⟨true, some fid⟩)) =
      Except.ok (file, (⟨false, none⟩ : MdDeleteResult))
    simp only [heq]
    simp

/-- Witness for C5 at a concrete three-feature project: deleting feature 1
strips it from feature 2's dependencies and reports feature 2 as affected;
deleting the missing id 9 raises; the Markdown delete of a missing id
returns `success=False` without raising. -/
theorem delete_feature_cascade_witness :
    sqlite_delete_feature
      [{ id := 1, priority := 1, category := "c", name := "A" },
       { id := 2, priority := 2, category := "c", name := "B", dependencies := [1, 3] },
       { id := 3, priority := 3, category := "c", name := "C" }] 1 =
      Except.ok
        (([{ id := 2, priority := 2, category := "c", name := "B", dependencies := [1, 3] },
           { id := 3, priority := 3, category := "c", name := "C" }] : List Feature).map
           (fun g => { g with dependencies := g.dependencies.filter (fun d => d ≠ 1) }),
         ⟨true, [2]⟩) ∧
    isError (sqlite_delete_feature
      [{ id := 1, priority := 1, category := "c", name := "A" }] 9) = true ∧
    md_delete_feature (some "# A\n- [ ] x <!-- id: 1 -->") 9 =
      Except.ok (some "# A\n- [ ] x <!-- id: 1 -->", ⟨false, none⟩) := by
  refine ⟨?_, ?_, ?_⟩
  · have := (delete_feature_cascade
      [{ id := 1, priority := 1, category := "c", name := "A" },
       { id := 2, priority := 2, category := "c", name := "B", dependencies := [1, 3] },
       { id := 3, priority := 3, category := "c", name := "C" }] none 1
      (by unfold NodupIds; decide)).2.1
      { id := 1, priority := 1, category := "c", name := "A" } (by decide)
    rw [this]
    rfl
  · exact (delete_feature_cascade
      [{ id := 1, priority := 1, category := "c", name := "A" }] none 9
      (by unfold NodupIds; decide)).1 (by decide)
  · exact (delete_feature_cascade [] (some "# A\n- [ ] x <!-- id: 1 -->") 9
      (by unfold NodupIds; decide)).2.2.2 (by decide)

/-- Counterexample to C5 as stated: the Markdown backend's `delete_feature`
on a missing id does not fail with an error — it returns
`{"success": False}`. -/
theorem md_delete_missing_counterexample :
    md_delete_feature (some "# A\n- [ ] x <!-- id: 1 -->") 99 =
      Except.ok (some "# A\n- [ ] x <!-- id: 1 -->", ⟨false, none⟩) ∧
    isError (md_delete_feature (some "# A\n- [ ] x <!-- id: 1 -->") 99) = false :=
  ⟨rfl, rfl⟩

end ClaimC5

section ClaimC6

/-- C6 (amended): only the SQLite backend rejects edits of completed
features — `update_feature` fails exactly when the feature is absent or
its `passes` flag is true, and otherwise applies exactly the fields
present in the partial update (`applyUpdate`) and returns the refreshed
response.  The Markdown backend has no such guard: its `update_feature`
fails exactly when the feature is absent, and applies the partial update
even to a feature with `passes=true`. -/
theorem update_feature_immutability (fs : List Feature) (file : Option String)
    (fid : Nat) (u : FeatureUpdate) :
    (isError (sqlite_update_feature fs fid u) = true ↔
      fs.find? (fun f => f.id == fid) = none ∨
      ∃ f, fs.find? (fun f => f.id == fid) = some f ∧ f.passes = true) ∧
    (∀ f, fs.find? (fun f => f.id == fid) = some f → f.passes = false →
      sqlite_update_feature fs fid u =
        Except.ok (updFirst fs fid (fun g => applyUpdate g u),
          feature_to_response (applyUpdate f u)
            (some (passingIds (updFirst fs fid (fun g => applyUpdate g u)))))) ∧
    (isError (md_update_feature file fid u) = true ↔
      (md_read_features file).find? (fun f => f.id == fid) = none) := by
  refine ⟨?_, ?_, ?_⟩
  · unfold sqlite_update_feature
    rcases hf : fs.find? (fun f => f.id == fid) with _ | f <;> simp only [hf]
    · simp [isError]
    · by_cases hp : f.passes = true
      · rw [if_pos hp]
        simp [isError, hp]
      · rw [if_neg hp]
        simp only [isError]
        constructor
        · intro hcontra; cases hcontra
        · rintro (hcontra | ⟨g, hg, hgp⟩)
          · cases hcontra
          · injection hg with hg
            subst hg
            exact absurd hgp hp
  · intro f hf hp
    unfold sqlite_update_feature
    simp only [hf]
    rw [if_neg (by simp [hp])]
  · unfold md_update_feature
    rcases hf : (md_read_features file).find? (fun f => f.id == fid) with _ | f <;>
      simp only [hf]
    · simp [isError]
    · simp [isError]

/-- Witness for C6 at concrete inputs: a SQLite update of the non-passing
feature 1 succeeds with exactly the named field applied, and an update of
a missing id errors. -/
theorem update_feature_immutability_witness :
    sqlite_update_feature
      [{ id := 1, priority := 1, category := "c", name := "A" }] 1
      { name := some "renamed" } =
      Except.ok
        (updFirst [{ id := 1, priority := 1, category := "c", name := "A" }] 1
           (fun g => applyUpdate g { name := some "renamed" }),
         feature_to_response
           (applyUpdate { id := 1, priority := 1, category := "c", name := "A" }
             { name := some "renamed" })
           (some (passingIds
             (updFirst [{ id := 1, priority := 1, category := "c", name := "A" }] 1
               (fun g => applyUpdate g { name := some "renamed" }))))) ∧
    isError (sqlite_update_feature ([] : List Feature) 1 { name := some "x" }) = true :=
  ⟨(update_feature_immutability
      [{ id := 1, priority := 1, category := "c", name := "A" }] none 1
      { name := some "renamed" }).2.1
      { id := 1, priority := 1, category := "c", name := "A" } (by decide) (by decide),
   (update_feature_immutability ([] : List Feature) none 1
      { name := some "x" }).1.mpr (Or.inl (by decide))⟩

/-- Counterexample to C6 as stated: the Markdown backend updates a feature
whose `passes` flag is true (the claim requires every such update to
fail): renaming completed feature 1 succeeds and rewrites the file. -/
theorem md_update_completed_counterexample :
    md_get_feature (some "# A\n- [x] done <!-- id: 1 -->") 1 =
      some { id := 1, priority := 1, category := "A", name := "done", passes := true } ∧
    md_update_feature (some "# A\n- [x] done <!-- id: 1 -->") 1
        { name := some "renamed" } =
      Except.ok (some "# A\n\n- [x] renamed <!-- id: 1 -->\n",
        { id := 1, priority := 1, category := "A", name := "renamed", passes := true }) :=
  ⟨rfl, rfl⟩

end ClaimC6

section ClaimC7

theorem filter_not_isEmpty_eq_any (l : List Nat) (p : Nat → Bool) :
    (!(l.filter p).isEmpty) = l.any p := by
  induction l with
  | nil => rfl
  | cons x xs ih =>
      by_cases hp : p x = true <;> simp [List.filter_cons, hp, ← ih]

theorem sqlite_graph_status_eq_spec (passing : List Nat) (f : Feature) :
    sqlite_graph_status passing f = specStatus passing f := by
  unfold sqlite_graph_status specStatus
  rw [filter_not_isEmpty_eq_any]

theorem parseLine_deps_invariant {st : ParseState} {line : List Char}
    (hacc : ∀ f ∈ st.acc, f.dependencies = [])
    (hcur : ∀ f, st.cur = some f → f.dependencies = []) :
    (∀ f ∈ (parseLine st line).acc, f.dependencies = []) ∧
    (∀ f, (parseLine st line).cur = some f → f.dependencies = []) := by
  have hcommit : ∀ f ∈ commitCur st, f.dependencies = [] := by
    intro f hf
    unfold commitCur at hf
    rcases hc : st.cur with _ | g <;> rw [hc] at hf
    · exact hacc f hf
    · rcases List.mem_append.mp hf with hf | hf
      · exact hacc f hf
      · rw [List.mem_singleton] at hf
        subst hf
        exact hcur f hc
  unfold parseLine
  by_cases h0 : (stripChars line).isEmpty = true
  · rw [if_pos h0]; exact ⟨hacc, hcur⟩
  rw [if_neg h0]
  rcases hh : headerMatch line with _ | g <;> simp only [hh]
  · rcases hi : itemMatch line with _ | ⟨sc, g2⟩ <;> simp only [hi]
    · rcases hs : stepMatch line with _ | g <;> simp only [hs]
      · exact ⟨hacc, hcur⟩
      · rcases hc : st.cur with _ | f <;> simp only [hc]
        · exact ⟨hacc, fun f hf => by cases hf⟩
        · refine ⟨hacc, ?_⟩
          intro f' hf'
          injection hf' with hf'
          subst hf'
          exact hcur f hc
    · refine ⟨hcommit, ?_⟩
      intro f' hf'
      injection hf' with hf'
      subst hf'
      rfl
  · exact ⟨hacc, hcur⟩

theorem md_parse_no_dependencies (content : String) :
    ∀ f ∈ parse_features_md content, f.dependencies = [] := by
  unfold parse_features_md
  generalize splitOnNL content.data = lines
  have main : ∀ (lines : List (List Char)) (st : ParseState),
      (∀ f ∈ st.acc, f.dependencies = []) →
      (∀ f, st.cur = some f → f.dependencies = []) →
      ∀ f ∈ commitCur (lines.foldl parseLine st), f.dependencies = [] := by
    intro lines
    induction lines with
    | nil =>
        intro st hacc hcur f hf
        rw [List.foldl_nil] at hf
        unfold commitCur at hf
        rcases hc : st.cur with _ | g <;> rw [hc] at hf
        · exact hacc f hf
        · rcases List.mem_append.mp hf with hf | hf
          · exact hacc f hf
          · rw [List.mem_singleton] at hf
            subst hf
            exact hcur _ hc
    | cons line rest ih =>
        intro st hacc hcur
        have h := @parseLine_deps_invariant st line hacc hcur
        exact ih (parseLine st line) h.1 h.2
  exact main lines ⟨"General", none, [], 0⟩ (by intro f hf; cases hf) (by intro f hf; cases hf)

/-- C7 (amended): the SQLite dependency-graph nodes carry exactly the
spec's status derivation (done > blocked > in_progress > pending); the
Markdown backend's nodes also satisfy that derivation, but only vacuously —
its parser never yields dependencies, so "blocked" cannot arise; the
Convex backend genuinely deviates (see the counterexample): it derives
done > in_progress > pending and ignores dependencies. -/
theorem dependency_graph_status (fs : List Feature) (file : Option String) :
    ((sqlite_get_dependency_graph fs).1 =
      fs.map (fun f =>
        ⟨f.id, f.name, f.category, specStatus (passingIds fs) f, f.priority,
         f.dependencies⟩)) ∧
    ((md_get_dependency_graph file).1 =
      (md_read_features file).map (fun f =>
        ⟨f.id, toString f.id ++ ": " ++ f.name,
         specStatus (passingIds (md_read_features file)) f⟩)) ∧
    (∀ node ∈ (md_get_dependency_graph file).1, ¬ node.status = "blocked") := by
  refine ⟨?_, ?_, ?_⟩
  · unfold sqlite_get_dependency_graph
    refine List.map_congr_left ?_
    intro f _
    rw [sqlite_graph_status_eq_spec]
  · show (md_read_features file).map _ = _
    refine List.map_congr_left ?_
    intro f hf
    have hdeps : f.dependencies = [] :=
      match file with
      | none => by cases hf
      | some s => md_parse_no_dependencies s f hf
    have : specStatus (passingIds (md_read_features file)) f = md_node_status f := by
      unfold specStatus md_node_status
      rw [hdeps]
      rfl
    rw [this]
  · intro node hnode
    rcases List.mem_map.mp hnode with ⟨f, _, rfl⟩
    unfold md_node_status
    by_cases hp : f.passes = true
    · simp [hp]
    · by_cases hi : f.in_progress = true <;> simp [hp, hi]

/-- Counterexample to C7 as stated: in the Convex backend, feature 2 is
`in_progress` and depends on the non-passing feature 1; the spec derivation
requires status "blocked", but the graph node reports "in_progress". -/
theorem convex_graph_status_counterexample :
    convex_get_dependency_graph
      [{ id := 1, priority := 1, category := "c", name := "A" },
       { id := 2, priority := 2, category := "c", name := "B",
         dependencies := [1], in_progress := true }] =
      ([⟨1, "1: A", "pending"⟩, ⟨2, "2: B", "in_progress"⟩], [⟨1, 2⟩]) ∧
    specStatus
      (passingIds
        [{ id := 1, priority := 1, category := "c", name := "A" },
         { id := 2, priority := 2, category := "c", name := "B",
           dependencies := [1], in_progress := true }])
      { id := 2, priority := 2, category := "c", name := "B",
        dependencies := [1], in_progress := true } = "blocked" :=
  ⟨rfl, rfl⟩

end ClaimC7

section ClaimC9

theorem int_le_max?_of_mem {l : List Int} {a M : Int} (ha : a ∈ l)
    (hM : l.max? = some M) : a ≤ M :=
  ((List.max?_eq_some_iff (fun a => le_refl a) (fun a b => max_choice a b)
    (fun _ _ _ => max_le_iff)).mp hM).2 a ha

theorem mem_updFirst_of_ne {fs : List Feature} {fid : Nat} {h0 : Feature → Feature}
    {g : Feature} (hg : g ∈ fs) (hne : ¬ g.id = fid) : g ∈ updFirst fs fid h0 := by
  induction fs with
  | nil => cases hg
  | cons x rest ih =>
      unfold updFirst
      by_cases hx : x.id = fid
      · rw [if_pos (by simpa using hx)]
        rcases List.mem_cons.mp hg with rfl | hg'
        · exact absurd hx hne
        · exact List.mem_cons_of_mem _ hg'
      · rw [if_neg (by simpa using hx)]
        rcases List.mem_cons.mp hg with rfl | hg'
        · exact List.mem_cons_self _ _
        · exact List.mem_cons_of_mem _ (ih hg')

theorem target_mem_updFirst {fs : List Feature} {fid : Nat} {h0 : Feature → Feature}
    {f : Feature} (hf : fs.find? (fun x => x.id == fid) = some f) :
    h0 f ∈ updFirst fs fid h0 := by
  induction fs with
  | nil => cases hf
  | cons x rest ih =>
      unfold updFirst
      by_cases hx : x.id = fid
      · rw [if_pos (by simpa using hx)]
        rw [List.find?_cons_of_pos _ (by simpa using hx)] at hf
        injection hf with hf
        subst hf
        exact List.mem_cons_self _ _
      · rw [if_neg (by simpa using hx)]
        rw [List.find?_cons_of_neg _ (by simpa using hx)] at hf
        exact List.mem_cons_of_mem _ (ih hf)

theorem mem_updFirst_elim {fs : List Feature} {fid : Nat} {h0 : Feature → Feature}
    {g : Feature} (hnodup : NodupIds fs) (hg : g ∈ updFirst fs fid h0) :
    (g ∈ fs ∧ ¬ g.id = fid) ∨
    (∃ f, fs.find? (fun x => x.id == fid) = some f ∧ g = h0 f) := by
  induction fs with
  | nil => cases hg
  | cons x rest ih =>
      unfold NodupIds at hnodup
      rw [List.map_cons, List.nodup_cons] at hnodup
      unfold updFirst at hg
      by_cases hx : x.id = fid
      · rw [if_pos (by simpa using hx)] at hg
        rcases List.mem_cons.mp hg with rfl | hg'
        · exact Or.inr ⟨x, by rw [List.find?_cons_of_pos _ (by simpa using hx)], rfl⟩
        · refine Or.inl ⟨List.mem_cons_of_mem _ hg', ?_⟩
          intro hgid
          exact hnodup.1 (by
            rw [hx] at *
            exact List.mem_map.mpr ⟨g, hg', by rw [hgid, hx]⟩)
      · rw [if_neg (by simpa using hx)] at hg
        rcases List.mem_cons.mp hg with rfl | hg'
        · exact Or.inl ⟨List.mem_cons_self _ _, hx⟩
        · rcases ih hnodup.2 hg' with ⟨hmem, hne⟩ | ⟨f, hfind, hgf⟩
          · exact Or.inl ⟨List.mem_cons_of_mem _ hmem, hne⟩
          · exact Or.inr ⟨f, by rw [List.find?_cons_of_neg _ (by simpa using hx)]; exact hfind, hgf⟩

theorem map_id_updFirst (h0 : Feature → Feature) {fs : List Feature} {fid : Nat}
    (hid : ∀ f, (h0 f).id = f.id) :
    (updFirst fs fid h0).map Feature.id = fs.map Feature.id := by
  induction fs with
  | nil => rfl
  | cons x rest ih =>
      unfold updFirst
      by_cases hx : x.id = fid
      · rw [if_pos (by simpa using hx)]
        rw [List.map_cons, List.map_cons, hid]
      · rw [if_neg (by simpa using hx)]
        rw [List.map_cons, List.map_cons, ih]

theorem sqlite_skip_one {fs : List Feature} {fid : Nat} {f : Feature}
    (hnodup : NodupIds fs) (hf : fs.find? (fun x => x.id == fid) = some f) :
    sqlite_skip_feature fs fid =
      Except.ok (updFirst fs fid (fun g => { g with priority := skipPriority fs }), true) ∧
    SkipMax fs (updFirst fs fid (fun g => { g with priority := skipPriority fs })) fid ∧
    NodupIds (updFirst fs fid (fun g => { g with priority := skipPriority fs })) ∧
    (updFirst fs fid (fun g => { g with priority := skipPriority fs })).find?
        (fun x => x.id == fid) = some { f with priority := skipPriority fs } := by
  have hfid : f.id = fid := by simpa using List.find?_some hf
  have hmemf : f ∈ fs := List.mem_of_find?_eq_some hf
  have hM : ∃ m, maxPriority fs = some m := by
    unfold maxPriority
    rcases hmax : (fs.map Feature.priority).max? with _ | m
    · rw [List.max?_eq_none_iff] at hmax
      simp at hmax
      rw [hmax] at hmemf
      cases hmemf
    · exact ⟨m, rfl⟩
  rcases hM with ⟨m, hm⟩
  have hsp : skipPriority fs = m + 1 := by
    unfold skipPriority
    rw [hm]
  have hlt : ∀ g ∈ fs, g.priority < skipPriority fs := by
    intro g hg
    have : g.priority ≤ m :=
      int_le_max?_of_mem (List.mem_map.mpr ⟨g, hg, rfl⟩) hm
    rw [hsp]
    omega
  refine ⟨?_, ⟨?_, ?_, ?_⟩, ?_, ?_⟩
  · unfold sqlite_skip_feature
    rw [hf]
    dsimp only
    unfold skipPriority
    rfl
  · intro g hg hne
    exact mem_updFirst_of_ne hg hne
  · exact ⟨f, hmemf, hfid, target_mem_updFirst hf⟩
  · intro t ht htid g hg hgne
    rcases mem_updFirst_elim hnodup ht with ⟨_, hne⟩ | ⟨f₀, hfind₀, rfl⟩
    · exact absurd htid hne
    · rcases mem_updFirst_elim hnodup hg with ⟨hmem, _⟩ | ⟨f₁, hfind₁, rfl⟩
      · exact hlt g hmem
      · exfalso
        apply hgne
        show f₁.id = fid
        simpa using List.find?_some hfind₁
  · unfold NodupIds
    rw [map_id_updFirst (fun g => { g with priority := skipPriority fs }) (fun f => rfl)]
    exact hnodup
  · rw [find?_updFirst_self (fun g => { g with priority := skipPriority fs })
      (fun f => rfl), hf]
    rfl

/-- C9 (amended): in the SQLite backend, skipping an existing feature twice
succeeds both times, and after each call the feature holds the strict
maximum priority in the project while every other feature is untouched
(`SkipMax`); skipping a missing id raises.  In the Markdown backend the
reassigned priority does not survive the file round trip: re-parsing
assigns priorities by document order, so the skipped feature ends with the
maximum priority only if its category happens to sort last (see the
counterexample). -/
theorem sqlite_skip_idempotent_max (fs : List Feature) (fid : Nat)
    (hnodup : NodupIds fs) :
    (fs.find? (fun x => x.id == fid) = none →
      isError (sqlite_skip_feature fs fid) = true) ∧
    (∀ f, fs.find? (fun x => x.id == fid) = some f →
      ∃ fs₁ fs₂,
        sqlite_skip_feature fs fid = Except.ok (fs₁, true) ∧
        sqlite_skip_feature fs₁ fid = Except.ok (fs₂, true) ∧
        SkipMax fs fs₁ fid ∧ SkipMax fs₁ fs₂ fid) := by
  constructor
  · intro hf
    unfold sqlite_skip_feature
    rw [hf]
    rfl
  · intro f hf
    obtain ⟨hok₁, hskip₁, hnodup₁, hfind₁⟩ := sqlite_skip_one hnodup hf
    obtain ⟨hok₂, hskip₂, _, _⟩ := sqlite_skip_one hnodup₁ hfind₁
    exact ⟨_, _, hok₁, hok₂, hskip₁, hskip₂⟩

/-- Witness for C9 at a concrete two-feature project. -/
theorem sqlite_skip_idempotent_max_witness :
    (([{ id := 1, priority := 1, category := "c", name := "A" },
       { id := 2, priority := 2, category := "c", name := "B" }] : List Feature).find?
        (fun x => x.id == 9) = none →
      isError (sqlite_skip_feature
        [{ id := 1, priority := 1, category := "c", name := "A" },
         { id := 2, priority := 2, category := "c", name := "B" }] 9) = true) ∧
    (∀ f, ([{ id := 1, priority := 1, category := "c", name := "A" },
            { id := 2, priority := 2, category := "c", name := "B" }] : List Feature).find?
        (fun x => x.id == 9) = some f →
      ∃ fs₁ fs₂,
        sqlite_skip_feature
          [{ id := 1, priority := 1, category := "c", name := "A" },
           { id := 2, priority := 2, category := "c", name := "B" }] 9 =
          Except.ok (fs₁, true) ∧
        sqlite_skip_feature fs₁ 9 = Except.ok (fs₂, true) ∧
        SkipMax [{ id := 1, priority := 1, category := "c", name := "A" },
                 { id := 2, priority := 2, category := "c", name := "B" }] fs₁ 9 ∧
        SkipMax fs₁ fs₂ 9) :=
  sqlite_skip_idempotent_max
    [{ id := 1, priority := 1, category := "c", name := "A" },
     { id := 2, priority := 2, category := "c", name := "B" }] 9
    (by unfold NodupIds; decide)

/-- Counterexample to C9 as stated: the Markdown backend's `skip_feature`
on feature 2 (category "Alpha", which serializes before "Zeta") succeeds,
but after the call feature 2 has priority 1 and feature 1 has priority 2 —
the skipped feature does not hold the maximum priority. -/
theorem md_skip_not_max_counterexample :
    md_skip_feature
      (some "# Zeta\n- [ ] A <!-- id: 1 -->\n# Alpha\n- [ ] B <!-- id: 2 -->") 2 =
      (some "# Alpha\n\n- [ ] B <!-- id: 2 -->\n\n# Zeta\n\n- [ ] A <!-- id: 1 -->\n",
       true) ∧
    md_get_feature
      (some "# Alpha\n\n- [ ] B <!-- id: 2 -->\n\n# Zeta\n\n- [ ] A <!-- id: 1 -->\n") 2 =
      some { id := 2, priority := 1, category := "Alpha", name := "B" } ∧
    md_get_feature
      (some "# Alpha\n\n- [ ] B <!-- id: 2 -->\n\n# Zeta\n\n- [ ] A <!-- id: 1 -->\n") 1 =
      some { id := 1, priority := 2, category := "Zeta", name := "A" } := by
  refine ⟨by decide, by decide, by decide⟩

end ClaimC9

section ClaimC8

/-- C8 (amended): Scenario D holds — parsing the checklist line
`- [ ] Fix bug <!-- id: 7 -->` under `# Bugs` yields feature 7 in category
"Bugs" with `passes=false`, and serializing that parse output and
re-parsing yields the identical feature list.  The general serialize/parse
round trip, however, is stable only when the document's categories already
appear in serialization order (General first, the rest alphabetical) with
items in priority order; otherwise serialization regroups the items and a
re-parse reassigns priorities by document order (see the counterexample,
whose items all carry id comments). -/
theorem md_scenario_d_roundtrip :
    parse_features_md "# Bugs\n- [ ] Fix bug <!-- id: 7 -->" =
      [{ id := 7, priority := 1, category := "Bugs", name := "Fix bug" }] ∧
    serialize_features
      [{ id := 7, priority := 1, category := "Bugs", name := "Fix bug" }] =
      "# Bugs\n\n- [ ] Fix bug <!-- id: 7 -->\n" ∧
    parse_features_md
      (serialize_features
        (parse_features_md "# Bugs\n- [ ] Fix bug <!-- id: 7 -->")) =
      parse_features_md "# Bugs\n- [ ] Fix bug <!-- id: 7 -->" :=
  ⟨by decide, rfl, by decide⟩

/-- Counterexample to C8's general round-trip clause: both items of the
document carry id comments, yet serializing its parse output (categories
"Zeta" then "Alpha") and re-parsing permutes the features and swaps their
priorities. -/
theorem md_roundtrip_counterexample :
    parse_features_md "# Zeta\n- [ ] A <!-- id: 1 -->\n# Alpha\n- [ ] B <!-- id: 2 -->" =
      [{ id := 1, priority := 1, category := "Zeta", name := "A" },
       { id := 2, priority := 2, category := "Alpha", name := "B" }] ∧
    parse_features_md
      (serialize_features
        (parse_features_md
          "# Zeta\n- [ ] A <!-- id: 1 -->\n# Alpha\n- [ ] B <!-- id: 2 -->")) =
      [{ id := 2, priority := 1, category := "Alpha", name := "B" },
       { id := 1, priority := 2, category := "Zeta", name := "A" }] ∧
    ¬ parse_features_md
        (serialize_features
          (parse_features_md
            "# Zeta\n- [ ] A <!-- id: 1 -->\n# Alpha\n- [ ] B <!-- id: 2 -->")) =
      parse_features_md "# Zeta\n- [ ] A <!-- id: 1 -->\n# Alpha\n- [ ] B <!-- id: 2 -->" :=
  ⟨by decide, by decide, by decide⟩

end ClaimC8

section ClaimC10

/-- C10 (amended): only the Markdown backend's schedule read degrades
gracefully — `list_schedules` returns `[]` whenever `json.loads` fails on
`schedules.json` — while `get_context` and `get_roadmap` in every backend
guard only the missing-file case and propagate a parse error on malformed
JSON. -/
theorem data_corruption_handling (s : String) (e : String)
    (herr : json_loads s = Except.error e) :
    md_list_schedules (some s) = [] ∧
    sqlite_get_context (some s) = Except.error e ∧
    sqlite_get_roadmap (some s) = Except.error e ∧
    md_get_context (some s) = Except.error e ∧
    md_get_roadmap (some s) = Except.error e ∧
    convex_get_context (some s) = Except.error e ∧
    convex_get_roadmap (some s) = Except.error e ∧
    sqlite_get_context none = Except.ok (Json.obj []) ∧
    sqlite_get_roadmap none = Except.ok defaultRoadmap ∧
    md_get_context none = Except.ok (Json.obj []) ∧
    md_get_roadmap none = Except.ok defaultRoadmap ∧
    convex_get_context none = Except.ok (Json.obj []) ∧
    convex_get_roadmap none = Except.ok defaultRoadmap ∧
    md_list_schedules none = [] := by
  refine ⟨?_, ?_, ?_, ?_, ?_, ?_, ?_, rfl, rfl, rfl, rfl, rfl, rfl, rfl⟩ <;>
    simp [md_list_schedules, md_read_schedules_list, sqlite_get_context,
          sqlite_get_roadmap, md_get_context, md_get_roadmap, convex_get_context,
          convex_get_roadmap, herr]

/-- Witness for C10 at the concrete malformed input `"not json"`. -/
theorem data_corruption_handling_witness :
    md_list_schedules (some "not json") = [] ∧
    sqlite_get_context (some "not json") = Except.error "Expecting value" ∧
    sqlite_get_roadmap (some "not json") = Except.error "Expecting value" ∧
    md_get_context (some "not json") = Except.error "Expecting value" ∧
    md_get_roadmap (some "not json") = Except.error "Expecting value" ∧
    convex_get_context (some "not json") = Except.error "Expecting value" ∧
    convex_get_roadmap (some "not json") = Except.error "Expecting value" ∧
    sqlite_get_context none = Except.ok (Json.obj []) ∧
    sqlite_get_roadmap none = Except.ok defaultRoadmap ∧
    md_get_context none = Except.ok (Json.obj []) ∧
    md_get_roadmap none = Except.ok defaultRoadmap ∧
    convex_get_context none = Except.ok (Json.obj []) ∧
    convex_get_roadmap none = Except.ok defaultRoadmap ∧
    md_list_schedules none = [] :=
  data_corruption_handling "not json" "Expecting value" rfl

/-- Counterexample to C10 as stated: `get_context` on the malformed file
content `"not json"` raises a parse error instead of returning the empty
structure. -/
theorem get_context_malformed_counterexample :
    sqlite_get_context (some "not json") = Except.error "Expecting value" ∧
    isError (sqlite_get_context (some "not json")) = true ∧
    md_get_context (some "not json") = Except.error "Expecting value" :=
  ⟨rfl, rfl, rfl⟩

end ClaimC10

end AutoForge
